import Mathlib

/-!
# newsprojects: the post service of `main.go`

A shallow embedding of the HTTP handlers of `main.go` (`withCORS`,
`handlePosts`, `handleGetPosts`, `handleCreatePost`, `isAllowedImage`,
`saveUpload`, `writeJSON`, `handlePostByID`) together with the standard
library functions they call (`strings.TrimSpace`, `strings.TrimPrefix`,
`strings.ToLower`, `filepath.Ext`, `strconv.ParseInt`, `strconv.FormatInt`,
`http.Error`).

Conventions.
* A Go string is a list of Unicode code points (`List Char`); the bytes that
  the library functions test (`/`, `.`, `+`, `-`, digits) are ASCII and never
  occur inside a multi-byte sequence, so scanning code points and scanning
  bytes agree.
* `int64` and `uint64` values are `Int` and `Nat`; conversions that wrap are
  written with an explicit `% 2 ^ 64`.
* Everything the handlers obtain from outside (clock, file system and database
  failures) is read from an explicit `Env` value; the posts table, the uploads
  directory and the list of SQL statements issued so far form the `World`.
-/

namespace NewsProjects

/-! ## Strings -/

/-- Unicode white space as `unicode.IsSpace` defines it: the Latin-1 spaces
`\t \n \v \f \r`, space, U+0085, U+00A0, and the code points with the
`White_Space` property above Latin-1. -/
def isSpace (c : Char) : Bool :=
  let n := c.toNat
  (0x09 ≤ n && n ≤ 0x0d) || n == 0x20 || n == 0x85 || n == 0xA0 || n == 0x1680 ||
  (0x2000 ≤ n && n ≤ 0x200a) || n == 0x2028 || n == 0x2029 || n == 0x202f ||
  n == 0x205f || n == 0x3000

/-- Model of `strings.TrimSpace`: the leading run of white space is skipped
from the start, then the trailing run from the end. -/
def TrimSpace (s : List Char) : List Char :=
  (s.dropWhile isSpace).rdropWhile isSpace

/-- Model of `strings.HasPrefix`: `len(s) >= len(p) && s[:len(p)] == p`. -/
def HasPrefix (s p : List Char) : Bool :=
  decide (p.length ≤ s.length) && decide (s.take p.length = p)

/-- Model of `strings.TrimPrefix`: `s[len(p):]` when `s` starts with `p`, else `s`. -/
def TrimPrefix (s p : List Char) : List Char :=
  if HasPrefix s p then s.drop p.length else s

/-- The ASCII branch of `unicode.ToLower`, and the case table (`lowerTbl`,
`unicode.To(unicode.LowerCase, r)`) above ASCII. The Unicode case table is library
data, so it is a parameter. -/
def toLowerRune (lowerTbl : Char → Char) (c : Char) : Char :=
  if c.toNat ≤ 0x7f then
    if 0x41 ≤ c.toNat ∧ c.toNat ≤ 0x5a then Char.ofNat (c.toNat + 0x20) else c
  else lowerTbl c

/-- Model of `strings.ToLower`: every code point is mapped by `unicode.ToLower`. -/
def ToLower (lowerTbl : Char → Char) (s : List Char) : List Char :=
  s.map (toLowerRune lowerTbl)

/-- What is known of the Unicode lower-case table: a code point above ASCII is
mapped above ASCII, except U+0130 and U+212A whose lower case is `i` and `k`. -/
def LowerTableSound (lowerTbl : Char → Char) : Prop :=
  ∀ c : Char, 0x7f < c.toNat → 0x7f < (lowerTbl c).toNat ∨ lowerTbl c = 'i' ∨ lowerTbl c = 'k'

/-- A case table with the two ASCII-valued entries and the identity elsewhere,
used to evaluate the handlers on concrete inputs. -/
def sampleLowerTbl (c : Char) : Char :=
  if c.toNat = 0x130 then 'i' else if c.toNat = 0x212A then 'k' else c

/-- The loop of `filepath.Ext`:
`for i := len(path) - 1; i >= 0 && !os.IsPathSeparator(path[i]); i--`
with `if path[i] == '.' then return path[i:]`; the argument `n` is `i + 1`. -/
def extLoop (path : List Char) : Nat → List Char
  | 0 => []
  | i + 1 =>
    if path.getD i ' ' = '/' then []
    else if path.getD i ' ' = '.' then path.drop i
    else extLoop path i

/-- Model of `filepath.Ext` (path separator `/`). -/
def Ext (path : List Char) : List Char := extLoop path path.length

/-! ## strconv -/

/-- Result of a `strconv` parse: the value, a syntax error or a range error. -/
inductive NumResult (α : Type) where
  | ok (v : α)
  | errSyntax
  | errRange (v : α)
  deriving DecidableEq, Repr

/-- The cutoff of `ParseUint` for base 10: `maxUint64/10 + 1`. -/
def cutoff10 : Nat := (2 ^ 64 - 1) / 10 + 1

/-- The largest `uint64`. -/
def maxUint64 : Nat := 2 ^ 64 - 1

/-- The digit loop of `strconv.ParseUint(s, 10, 64)`; `n` is the value
accumulated so far. A byte that is no decimal digit (letters give a digit
`>= base`) is a syntax error; `n >= cutoff` or `n*10 + d` exceeding the
largest `uint64` is a range error, reported at once. -/
def parseUintLoop : List Char → Nat → NumResult Nat
  | [], n => .ok n
  | c :: cs, n =>
    if 0x30 ≤ c.toNat ∧ c.toNat ≤ 0x39 then
      let d := c.toNat - 0x30
      if cutoff10 ≤ n then .errRange maxUint64
      else
        let n0 := (n * 10) % 2 ^ 64
        let n1 := (n0 + d) % 2 ^ 64
        if n1 < n0 ∨ maxUint64 < n1 then .errRange maxUint64
        else parseUintLoop cs n1
    else .errSyntax

/-- Model of `strconv.ParseUint(s, 10, 64)`. -/
def ParseUint (s : List Char) : NumResult Nat :=
  if s = [] then .errSyntax else parseUintLoop s 0

/-- Conversion `int64(u)` of a `uint64`: two's complement wrap-around. -/
def toInt64 (u : Nat) : Int :=
  if u % 2 ^ 64 < 2 ^ 63 then ((u % 2 ^ 64 : Nat) : Int) else ((u % 2 ^ 64 : Nat) : Int) - 2 ^ 64

/-- Negation of an `int64`, wrapping at `-2^63`. -/
def negInt64 (n : Int) : Int :=
  if n = -(2 ^ 63) then n else -n

/-- The range check of `strconv.ParseInt` once the sign is picked off:
`cutoff = 1 << 63`; syntax errors of `ParseUint` are passed on, a range
error of `ParseUint` carries `maxUint64`, which is above the cutoff. -/
def parseIntSigned (neg : Bool) (r : NumResult Nat) : NumResult Int :=
  match r with
  | .errSyntax => .errSyntax
  | .ok un | .errRange un =>
    if !neg && decide (2 ^ 63 ≤ un) then .errRange (2 ^ 63 - 1)
    else if neg && decide (2 ^ 63 < un) then .errRange (-(2 ^ 63))
    else
      let n := toInt64 un
      .ok (if neg then negInt64 n else n)

/-- Model of `strconv.ParseInt(s, 10, 64)`. -/
def ParseInt (s : List Char) : NumResult Int :=
  match s with
  | [] => .errSyntax
  | c :: cs =>
    if c = '+' then parseIntSigned false (ParseUint cs)
    else if c = '-' then parseIntSigned true (ParseUint cs)
    else parseIntSigned false (ParseUint (c :: cs))

/-- Decimal digit `d < 10` as a character. -/
def digitChar (d : Nat) : Char := Char.ofNat (0x30 + d)

/-- Decimal digits of `u`, least significant produced first and written in
front of `acc`, as the backwards-filling loop of `formatBits` does; `fuel`
bounds the number of digits (a `uint64` has at most 20). -/
def formatBits : Nat → Nat → List Char → List Char
  | 0, _, acc => acc
  | fuel + 1, u, acc =>
    if u < 10 then digitChar u :: acc
    else formatBits fuel (u / 10) (digitChar (u % 10) :: acc)

/-- Model of `strconv.FormatInt(i, 10)` for an `int64`: a minus sign for a
negative value, then the decimal digits of the magnitude. -/
def FormatInt (i : Int) : List Char :=
  if i < 0 then '-' :: formatBits 20 i.natAbs [] else formatBits 20 i.natAbs []

/-! ## Data model -/

/-- The `Post` struct of `main.go`; `CreatedAt` is an instant (nanoseconds). -/
structure Post where
  ID : Int
  Caption : List Char
  ImageURL : List Char
  CreatedAt : Int
  deriving DecidableEq, Repr

/-- JSON documents; `time t` stands for the JSON string holding the RFC 3339
text of the instant `t`. -/
inductive JSON where
  | null
  | num (n : Int)
  | str (s : List Char)
  | time (t : Int)
  | arr (xs : List JSON)
  | obj (fields : List (List Char × JSON))

/-- Whether a document is a JSON array. -/
def JSON.isArray : JSON → Bool
  | .arr _ => true
  | _ => false

/-- What `encoding/json` makes of a `Post`, following the struct tags. -/
def Post.toJSON (p : Post) : JSON :=
  .obj [("id".toList, .num p.ID), ("caption".toList, .str p.Caption),
    ("imageUrl".toList, .str p.ImageURL), ("createdAt".toList, .time p.CreatedAt)]

/-- What `encoding/json` makes of a `[]Post`: a slice is `none` when it is
nil, and a nil slice is encoded as `null`. -/
def slicePostsJSON : Option (List Post) → JSON
  | none => .null
  | some ps => .arr (ps.map Post.toJSON)

/-- Go `append(s, p)` on a possibly nil slice. -/
def appendPost : Option (List Post) → Post → Option (List Post)
  | none, p => some [p]
  | some ps, p => some (ps ++ [p])

/-- SQL statements the handlers send to the database. -/
inductive SQL where
  | selectRecent
  | insertPost (imageURL caption : List Char)
  | selectCreatedAt (id : Int)
  | selectByID (id : Int)
  deriving DecidableEq, Repr

/-- Modelled from the spec: the `posts` table and the engine that holds it are
not part of the source. The table is a list of rows in insertion order, `id` is
assigned by the backend from a counter (`nextID`), values are stored as given.
`uploads` is the content of the `./uploads` directory (name, bytes) and
`sqlLog` records the statements issued so far. -/
structure World where
  posts : List Post
  nextID : Int
  uploads : List (List Char × List Nat)
  sqlLog : List SQL
  deriving DecidableEq, Repr

/-- Modelled from the spec: `id` is unique and assigned increasingly by the
backend; ids are positive `int64` values below the counter. -/
def World.wf (wd : World) : Prop :=
  0 < wd.nextID ∧ wd.nextID < 2 ^ 63 ∧ (∀ p ∈ wd.posts, 0 < p.ID ∧ p.ID < wd.nextID) ∧
    (wd.posts.map Post.ID).Nodup

/-- Everything a handler run obtains from outside the program. -/
structure Env where
  /-- error of `fhs[0].Open()` inside `r.FormFile` -/
  openErr : Option (List Char)
  /-- `time.Now().UnixNano()` read by `saveUpload` -/
  now : Int
  /-- error of `os.Create` -/
  createErr : Option (List Char)
  /-- error of `io.Copy` together with the number of bytes already written -/
  copyErr : Option (Nat × List Char)
  /-- error of the `INSERT` (`ExecContext`) -/
  execErr : Option (List Char)
  /-- clock of the backend, the value given to `created_at` -/
  dbNow : Int
  /-- error of the `SELECT created_at` that follows the insert -/
  readBackErr : Option (List Char)
  /-- `time.Now()` used when that read fails -/
  localNow : Int
  /-- error of `QueryContext` or `QueryRowContext` other than `sql.ErrNoRows` -/
  queryErr : Option (List Char)
  /-- error of `rows.Scan` together with the index of the row it occurs at -/
  scanErr : Option (Nat × List Char)

/-- An environment in which nothing fails. -/
def Env.quiet : Env :=
  { openErr := none, now := 1700000000000000000, createErr := none, copyErr := none,
    execErr := none, dbNow := 1700000000, readBackErr := none, localNow := 1700000001,
    queryErr := none, scanErr := none }

/-- The part of `multipart.FileHeader` the handlers use, with the file content. -/
structure FileHeader where
  Filename : List Char
  content : List Nat
  deriving DecidableEq, Repr

/-- The part of `http.Request` the handlers use. `parseErr` is the outcome of
`r.ParseMultipartForm(10 << 20)` on the size-limited body, `Query` holds the
parameters of the URL query string (`r.URL.Query()`), `Value` the text fields
of the multipart body (`r.MultipartForm.Value`) and `File` its file fields
(`r.MultipartForm.File`). -/
structure Request where
  Method : List Char
  Path : List Char
  parseErr : Option (List Char)
  Query : List Char → List (List Char)
  Value : List Char → List (List Char)
  File : List Char → List FileHeader

/-- The map `r.Form` once `r.ParseMultipartForm` has run on a multipart
request: `ParseForm` fills it with the URL query parameters, then the text
fields of the multipart body are appended to the values of each key. -/
def Request.Form (r : Request) (key : List Char) : List (List Char) :=
  r.Query key ++ r.Value key

/-- Model of `r.FormValue(key)`: the first value of the key in `r.Form`, `""`
without one. -/
def Request.FormValue (r : Request) (key : List Char) : List Char :=
  match r.Form key with
  | [] => []
  | v :: _ => v

/-- Model of `r.FormFile(key)`: the first file of the key; `none` stands for
`http.ErrMissingFile` or for an error opening the file. -/
def Request.FormFile (env : Env) (r : Request) (key : List Char) : Option FileHeader :=
  match r.File key with
  | [] => none
  | fh :: _ =>
    match env.openErr with
    | some _ => none
    | none => some fh

/-! ## Response writer -/

/-- A piece written to the response body. -/
inductive BodyPart where
  | text (s : List Char)
  | json (v : JSON)

/-- Model of `http.ResponseWriter`: the header map handlers edit, the status
once `WriteHeader` has run, the header map as it was sent at that moment, and
the body written so far. -/
structure ResponseWriter where
  header : List (List Char × List Char)
  status : Option Nat
  wire : List (List Char × List Char)
  body : List BodyPart

/-- A fresh response writer. -/
def ResponseWriter.new : ResponseWriter :=
  { header := [], status := none, wire := [], body := [] }

/-- Model of `Header.Del`. -/
def headerDel (h : List (List Char × List Char)) (k : List Char) : List (List Char × List Char) :=
  h.filter (fun kv => kv.1 ≠ k)

/-- Model of `Header.Set`: the key gets this single value. -/
def headerSet (h : List (List Char × List Char)) (k v : List Char) : List (List Char × List Char) :=
  (k, v) :: headerDel h k

/-- Model of `Header.Get`. -/
def headerGet (h : List (List Char × List Char)) (k : List Char) : Option (List Char) :=
  h.lookup k

/-- `w.Header().Set(k, v)`. -/
def ResponseWriter.Set (w : ResponseWriter) (k v : List Char) : ResponseWriter :=
  { w with header := headerSet w.header k v }

/-- `w.WriteHeader(code)`: the first call fixes status and headers; later calls
are ignored. -/
def ResponseWriter.WriteHeader (w : ResponseWriter) (code : Nat) : ResponseWriter :=
  match w.status with
  | some _ => w
  | none => { w with status := some code, wire := w.header }

/-- `w.Write(...)`: an implicit `WriteHeader(200)` when no status was written. -/
def ResponseWriter.Write (w : ResponseWriter) (part : BodyPart) : ResponseWriter :=
  let w1 := w.WriteHeader 200
  { w1 with body := w1.body ++ [part] }

/-- The response as the server completes it when the handler returns: status
200 when the handler wrote none. -/
def ResponseWriter.finish (w : ResponseWriter) : ResponseWriter := w.WriteHeader 200

/-- Status code of the response on the wire. -/
def ResponseWriter.code (w : ResponseWriter) : Nat := (w.finish.status).getD 200

/-- Model of `http.Error`. -/
def Error (w : ResponseWriter) (msg : List Char) (code : Nat) : ResponseWriter :=
  let w1 := { w with header := headerDel w.header "Content-Length".toList }
  let w2 := w1.Set "Content-Type".toList "text/plain; charset=utf-8".toList
  let w3 := w2.Set "X-Content-Type-Options".toList "nosniff".toList
  (w3.WriteHeader code).Write (.text (msg ++ "\n".toList))

/-- Function `writeJSON` of `main.go`, on the document `encoding/json` produces. -/
def writeJSON (w : ResponseWriter) (v : JSON) : ResponseWriter :=
  (w.Set "Content-Type".toList "application/json".toList).Write (.json v)

/-- A handler: reads the environment and the request, edits the response writer
and the world. -/
abbrev Handler := Env → Request → ResponseWriter → World → ResponseWriter × World

/-! ## Handlers of `main.go` -/

/-- Function `withCORS`. -/
def withCORS (next : Handler) : Handler := fun env r w wd =>
  let w1 := w.Set "Access-Control-Allow-Origin".toList "*".toList
  let w2 := w1.Set "Access-Control-Allow-Methods".toList "GET,POST,OPTIONS".toList
  let w3 := w2.Set "Access-Control-Allow-Headers".toList "Content-Type".toList
  if r.Method = "OPTIONS".toList then (w3.WriteHeader 204, wd)
  else next env r w3 wd

/-- Modelled from the spec: result of
`SELECT ... FROM posts ORDER BY id DESC LIMIT 100` on the table. -/
def selectRecent (posts : List Post) : List Post :=
  (posts.insertionSort (fun a b => b.ID ≤ a.ID)).take 100

/-- The `for rows.Next()` loop of `handleGetPosts`: row number `i` is scanned
and appended; a `Scan` error ends the loop with the error text. -/
def scanRows (scanErr : Option (Nat × List Char)) :
    List Post → Nat → Option (List Post) → Except (List Char) (Option (List Post))
  | [], _, acc => .ok acc
  | p :: rest, i, acc =>
    match scanErr with
    | some (k, msg) =>
      if k = i then .error msg else scanRows scanErr rest (i + 1) (appendPost acc p)
    | none => scanRows scanErr rest (i + 1) (appendPost acc p)

/-- Method `handleGetPosts`. -/
def handleGetPosts : Handler := fun env _r w wd =>
  let wd1 := { wd with sqlLog := wd.sqlLog ++ [SQL.selectRecent] }
  match env.queryErr with
  | some e => (Error w ("DB query error: ".toList ++ e) 500, wd1)
  | none =>
    match scanRows env.scanErr (selectRecent wd.posts) 0 none with
    | .error e => (Error w ("DB scan error: ".toList ++ e) 500, wd1)
    | .ok posts => (writeJSON w (slicePostsJSON posts), wd1)

/-- Function `isAllowedImage`, on `h.Filename`. -/
def isAllowedImage (lowerTbl : Char → Char) (filename : List Char) : Bool :=
  let ext := ToLower lowerTbl (Ext filename)
  if ext = ".jpg".toList ∨ ext = ".jpeg".toList ∨ ext = ".png".toList ∨ ext = ".webp".toList
  then true else false

/-- Model of `os.Create` followed by writes: the file of that name now holds
`content`. -/
def writeFile (dir : List (List Char × List Nat)) (name : List Char) (content : List Nat) :
    List (List Char × List Nat) :=
  (name, content) :: dir.filter (fun f => f.1 ≠ name)

/-- Function `saveUpload`: the generated name or the error, and the uploads
directory afterwards; `filepath.Join("uploads", name)` is the entry `name` of
the directory. A failing `io.Copy` leaves the bytes already written. -/
def saveUpload (lowerTbl : Char → Char) (env : Env) (h : FileHeader)
    (dir : List (List Char × List Nat)) : Except (List Char) (List Char) × List (List Char × List Nat) :=
  let ext := ToLower lowerTbl (Ext h.Filename)
  let name := FormatInt env.now ++ ext
  match env.createErr with
  | some e => (.error e, dir)
  | none =>
    match env.copyErr with
    | some (n, e) => (.error e, writeFile dir name (h.content.take n))
    | none => (.ok name, writeFile dir name h.content)

/-- Method `handleCreatePost`. -/
def handleCreatePost (lowerTbl : Char → Char) : Handler := fun env r w wd =>
  match r.parseErr with
  | some e => (Error w ("Invalid multipart form: ".toList ++ e) 400, wd)
  | none =>
    let caption := TrimSpace (r.FormValue "caption".toList)
    if caption = [] then (Error w "Caption is required".toList 400, wd)
    else
      match r.FormFile env "image".toList with
      | none => (Error w "Image is required".toList 400, wd)
      | some header =>
        if !isAllowedImage lowerTbl header.Filename then
          (Error w "Only JPG, PNG, WEBP images are allowed".toList 400, wd)
        else
          match saveUpload lowerTbl env header wd.uploads with
          | (.error e, dir) =>
            (Error w ("Failed to save image: ".toList ++ e) 500, { wd with uploads := dir })
          | (.ok filename, dir) =>
            let imageURL := "/uploads/".toList ++ filename
            let wd1 := { wd with uploads := dir,
                                 sqlLog := wd.sqlLog ++ [SQL.insertPost imageURL caption] }
            match env.execErr with
            | some e => (Error w ("DB insert error: ".toList ++ e) 500, wd1)
            | none =>
              let id := wd1.nextID
              let wd2 := { wd1 with
                posts := wd1.posts ++ [{ ID := id, Caption := caption, ImageURL := imageURL,
                                         CreatedAt := env.dbNow }],
                nextID := id + 1,
                sqlLog := wd1.sqlLog ++ [SQL.selectCreatedAt id] }
              let createdAt :=
                match env.readBackErr, wd2.posts.find? (fun p => p.ID = id) with
                | none, some row => row.CreatedAt
                | _, _ => env.localNow
              (writeJSON w (Post.toJSON { ID := id, Caption := caption, ImageURL := imageURL,
                                          CreatedAt := createdAt }), wd2)

/-- Method `handlePosts`. -/
def handlePosts (lowerTbl : Char → Char) : Handler := fun env r w wd =>
  if r.Method = "GET".toList then handleGetPosts env r w wd
  else if r.Method = "POST".toList then handleCreatePost lowerTbl env r w wd
  else (Error w "Method not allowed".toList 405, wd)

/-- Method `handlePostByID`. -/
def handlePostByID : Handler := fun env r w wd =>
  if r.Method ≠ "GET".toList then (Error w "Method not allowed".toList 405, wd)
  else
    let idStr := TrimSpace (TrimPrefix r.Path "/api/posts/".toList)
    if idStr = [] then (Error w "Missing id".toList 400, wd)
    else
      match ParseInt idStr with
      | .errSyntax => (Error w "Invalid id".toList 400, wd)
      | .errRange _ => (Error w "Invalid id".toList 400, wd)
      | .ok id =>
        if id ≤ 0 then (Error w "Invalid id".toList 400, wd)
        else
          let wd1 := { wd with sqlLog := wd.sqlLog ++ [SQL.selectByID id] }
          match env.queryErr with
          | some e => (Error w ("DB error: ".toList ++ e) 500, wd1)
          | none =>
            match wd.posts.find? (fun p => p.ID = id) with
            | none => (Error w "Post not found".toList 404, wd1)
            | some p => (writeJSON w p.toJSON, wd1)

/-! ## Specification-side notions -/

/-- The final element of a slash-separated path: what follows the last `/`. -/
def lastElement (path : List Char) : List Char :=
  path.rtakeWhile (fun c => c != '/')

/-- The extension in the words of the specification: the suffix of the final
path element that starts at its last dot, empty when it has no dot. -/
def extensionOf (path : List Char) : List Char :=
  if '.' ∈ lastElement path then '.' :: (lastElement path).rtakeWhile (fun c => c != '.')
  else []

/-- The image extensions the service accepts. -/
def allowedExts : List (List Char) :=
  [".jpg".toList, ".jpeg".toList, ".png".toList, ".webp".toList]

/-- ASCII letters. -/
def isAsciiLetter (c : Char) : Bool :=
  (0x41 ≤ c.toNat && c.toNat ≤ 0x5a) || (0x61 ≤ c.toNat && c.toNat ≤ 0x7a)

/-- Two characters are equal up to the case of an ASCII letter. -/
def eqFoldChar (a b : Char) : Bool :=
  a == b || (isAsciiLetter a && isAsciiLetter b &&
    (a.toNat + 0x20 == b.toNat || b.toNat + 0x20 == a.toNat))

/-- Case-insensitive comparison of two strings, character by character. -/
def eqFold : List Char → List Char → Bool
  | [], [] => true
  | a :: as, b :: bs => eqFoldChar a b && eqFold as bs
  | _, _ => false

/-- ASCII decimal digits. -/
def isDigit (c : Char) : Bool := 0x30 ≤ c.toNat && c.toNat ≤ 0x39

/-- The number a string of decimal digits denotes. -/
def decimalValue (ds : List Char) : Nat :=
  ds.foldl (fun n c => n * 10 + (c.toNat - 0x30)) 0

/-- The string `s` is a base-10 integer with value `v`: an optional sign
followed by at least one digit and nothing else. -/
def IsDecimal (s : List Char) (v : Int) : Prop :=
  ∃ ds : List Char, ds ≠ [] ∧ (∀ c ∈ ds, isDigit c = true) ∧
    (((s = ds ∨ s = '+' :: ds) ∧ v = (decimalValue ds : Int)) ∨
      (s = '-' :: ds ∧ v = -(decimalValue ds : Int)))

/-- A response writer as the server hands it to a handler: nothing sent yet. -/
def ResponseWriter.fresh (w : ResponseWriter) : Prop := w.status = none ∧ w.body = []

/-- The `id` member of a JSON object, when it is a number. -/
def JSON.idOf : JSON → Option Int
  | .obj fields =>
    match fields.lookup "id".toList with
    | some (.num n) => some n
    | _ => none
  | _ => none

/-- The ids of the posts listed in a response: the body is read as one JSON
array of objects; any other body lists nothing. -/
def listedIDs (w : ResponseWriter) : List Int :=
  match w.body with
  | [.json (.arr xs)] => xs.filterMap JSON.idOf
  | _ => []

/-- The member `k` of a JSON object. -/
def JSON.member (k : List Char) : JSON → Option JSON
  | .obj fields => fields.lookup k
  | _ => none

/-- The member `k` of a JSON object, when it is a string. -/
def JSON.strMember (k : List Char) (j : JSON) : Option (List Char) :=
  match j.member k with
  | some (.str s) => some s
  | _ => none

/-- The `id` of the post a response returns: the body is read as one JSON
object. -/
def returnedID (w : ResponseWriter) : Option Int :=
  match w.body with
  | [.json v] => v.idOf
  | _ => none

/-- The `caption` of the post a response returns. -/
def returnedCaption (w : ResponseWriter) : Option (List Char) :=
  match w.body with
  | [.json v] => v.strMember "caption".toList
  | _ => none

/-- The `imageUrl` of the post a response returns. -/
def returnedImageURL (w : ResponseWriter) : Option (List Char) :=
  match w.body with
  | [.json v] => v.strMember "imageUrl".toList
  | _ => none

/-- The handler leaves the value of response header `k` as it found it. -/
def KeepsHeader (next : Handler) (k : List Char) : Prop :=
  ∀ env r w wd v, w.status = none → headerGet w.header k = some v →
    headerGet (next env r w wd).1.finish.wire k = some v

/-- The three cross-origin headers are on the wire. -/
def hasCORS (w : ResponseWriter) : Prop :=
  headerGet w.finish.wire "Access-Control-Allow-Origin".toList = some "*".toList ∧
  headerGet w.finish.wire "Access-Control-Allow-Methods".toList = some "GET,POST,OPTIONS".toList ∧
  headerGet w.finish.wire "Access-Control-Allow-Headers".toList = some "Content-Type".toList

/-- The empty store of a new installation. -/
def World.empty : World := { posts := [], nextID := 1, uploads := [], sqlLog := [] }

/-- A request with the given method and path and an empty form. -/
def sampleRequest (method path : String) : Request :=
  { Method := method.toList, Path := path.toList, parseErr := none,
    Query := fun _ => [], Value := fun _ => [], File := fun _ => [] }

/-- A create request whose form holds the caption and one image file. -/
def sampleCreate (caption filename : String) : Request :=
  { Method := "POST".toList, Path := "/api/posts".toList, parseErr := none,
    Query := fun _ => [],
    Value := fun k => if k = "caption".toList then [caption.toList] else [],
    File := fun k => if k = "image".toList then [{ Filename := filename.toList, content := [1, 2, 3] }]
      else [] }

/-- A create request that carries a `caption` parameter in the URL query
string next to the caption field and the image file of its multipart form. -/
def sampleCreateQuery (queryCaption formCaption filename : String) : Request :=
  { Method := "POST".toList, Path := "/api/posts".toList, parseErr := none,
    Query := fun k => if k = "caption".toList then [queryCaption.toList] else [],
    Value := fun k => if k = "caption".toList then [formCaption.toList] else [],
    File := fun k => if k = "image".toList then [{ Filename := filename.toList, content := [1, 2, 3] }]
      else [] }

/-- A store holding two posts. -/
def World.sample : World :=
  { posts := [{ ID := 1, Caption := "first".toList, ImageURL := "/uploads/10.png".toList,
                CreatedAt := 10 },
              { ID := 2, Caption := "second".toList, ImageURL := "/uploads/20.jpg".toList,
                CreatedAt := 20 }],
    nextID := 3, uploads := [("10.png".toList, [1]), ("20.jpg".toList, [2])], sqlLog := [] }

/-! # Theorems -/

/-! ## Facts about the string functions -/

theorem TrimPrefix_append (p s : List Char) : TrimPrefix (p ++ s) p = s := by
  simp [TrimPrefix, HasPrefix]

theorem TrimSpace_eq_nil_iff (s : List Char) :
    TrimSpace s = [] ↔ ∀ c ∈ s, isSpace c = true := by
  unfold TrimSpace
  rw [List.rdropWhile_eq_nil_iff]
  constructor
  · intro h
    by_cases hd : s.dropWhile isSpace = []
    · exact List.dropWhile_eq_nil_iff.mp hd
    · have h1 := List.head_dropWhile_not isSpace s hd
      have h2 := h _ (List.head_mem hd)
      rw [h1] at h2
      exact absurd h2 (by simp)
  · intro h
    rw [List.dropWhile_eq_nil_iff.mpr h]
    simp

/-- The loop of `filepath.Ext` seen from the end of the path: `q` is the part
still to scan, reversed, and `suf` the part already scanned. -/
theorem extLoop_reverse (q suf : List Char) :
    extLoop (q.reverse ++ suf) q.length =
      if '.' ∈ q.takeWhile (fun c => c != '/') then
        '.' :: (((q.takeWhile (fun c => c != '/')).takeWhile (fun c => c != '.')).reverse ++ suf)
      else [] := by
  induction q generalizing suf with
  | nil => simp [extLoop]
  | cons c q ih =>
    have hget : (((c :: q).reverse ++ suf).getD q.length ' ') = c := by
      have e : (c :: q).reverse ++ suf = q.reverse ++ (c :: suf) := by simp
      rw [e, List.getD_eq_getElem?_getD, List.getElem?_append_right (by simp)]
      simp
    have hdrop : ((c :: q).reverse ++ suf).drop q.length = c :: suf := by
      have : (c :: q).reverse ++ suf = q.reverse ++ (c :: suf) := by simp
      rw [this, List.drop_left' (by simp)]
    have hpath : (c :: q).reverse ++ suf = q.reverse ++ (c :: suf) := by simp
    rw [List.length_cons, extLoop, hget, hdrop]
    by_cases h1 : c = '/'
    · subst h1; simp [List.takeWhile]
    · by_cases h2 : c = '.'
      · subst h2; simp [List.takeWhile]
      · rw [if_neg h1, if_neg h2, hpath, ih (c :: suf)]
        have e1 : (c != '/') = true := by simpa using h1
        have e2 : (c != '.') = true := by simpa using h2
        have h3 : ¬ ('.' = c) := fun h => h2 h.symm
        simp [List.takeWhile, e1, e2, h3]

/-- Function `filepath.Ext` computes the extension of the specification. -/
theorem Ext_eq_extensionOf (path : List Char) : Ext path = extensionOf path := by
  have h := extLoop_reverse path.reverse []
  simp only [List.reverse_reverse, List.append_nil, List.length_reverse] at h
  unfold Ext extensionOf lastElement
  rw [h]
  simp [List.rtakeWhile]

/-- Characters of the accepted extensions. -/
theorem allowedExts_chars : ∀ a ∈ allowedExts, ∀ b ∈ a, b ∈ ".jpgenwb".toList := by
  decide

set_option maxRecDepth 100000 in
theorem toLowerRune_ascii_table :
    ∀ n : Fin 128, ∀ b ∈ ".jpgenwb".toList,
      (toLowerRune id (Char.ofNat n.val) = b ↔ eqFoldChar (Char.ofNat n.val) b = true) := by
  decide

theorem toLowerRune_eq_iff (lowerTbl : Char → Char) (h : LowerTableSound lowerTbl)
    (c b : Char) (hb : b ∈ ".jpgenwb".toList) :
    toLowerRune lowerTbl c = b ↔ eqFoldChar c b = true := by
  by_cases hc : c.toNat ≤ 0x7f
  · have h1 : toLowerRune lowerTbl c = toLowerRune id c := by simp [toLowerRune, hc]
    have h2 := toLowerRune_ascii_table ⟨c.toNat, by omega⟩ b hb
    simp only [Char.ofNat_toNat] at h2
    rw [h1]; exact h2
  · have hbn : b.toNat ≤ 0x7f ∧ b ≠ 'i' ∧ b ≠ 'k' := by
      revert b; decide
    have h1 : toLowerRune lowerTbl c = lowerTbl c := by simp [toLowerRune, hc]
    have hne : c ≠ b := by
      intro e; subst e; exact hc hbn.1
    have hl : isAsciiLetter c = false := by
      simp only [isAsciiLetter, Bool.or_eq_false_iff, Bool.and_eq_false_iff, decide_eq_false_iff_not]
      constructor <;> right <;> omega
    have hr : eqFoldChar c b = false := by
      simp [eqFoldChar, hne, hl]
    rw [h1, hr]
    constructor
    · intro e
      rcases h c (by omega) with h3 | h3 | h3
      · rw [e] at h3; omega
      · rw [e] at h3; exact absurd h3 hbn.2.1
      · rw [e] at h3; exact absurd h3 hbn.2.2
    · intro e; exact absurd e (by simp)

theorem ToLower_eq_iff (lowerTbl : Char → Char) (h : LowerTableSound lowerTbl)
    (ext a : List Char) (ha : ∀ b ∈ a, b ∈ ".jpgenwb".toList) :
    ToLower lowerTbl ext = a ↔ eqFold ext a = true := by
  induction ext generalizing a with
  | nil => cases a <;> simp [ToLower, eqFold]
  | cons c cs ih =>
    cases a with
    | nil => simp [ToLower, eqFold]
    | cons b bs =>
      have hb := toLowerRune_eq_iff lowerTbl h c b (ha b (by simp))
      have hbs := ih bs (fun x hx => ha x (by simp [hx]))
      simp only [ToLower, List.map_cons, List.cons.injEq, eqFold, Bool.and_eq_true] at *
      rw [hb, hbs]

theorem sampleLowerTbl_sound : LowerTableSound sampleLowerTbl := by
  intro c hc
  unfold sampleLowerTbl
  split
  · right; left; rfl
  · split
    · right; right; rfl
    · left; exact hc

/-- Function `isAllowedImage` in the words of the specification. -/
theorem isAllowedImage_spec (lowerTbl : Char → Char) (h : LowerTableSound lowerTbl)
    (filename : List Char) :
    isAllowedImage lowerTbl filename = true ↔
      ∃ a ∈ allowedExts, eqFold (extensionOf filename) a = true := by
  have hc := allowedExts_chars
  have e1 := ToLower_eq_iff lowerTbl h (Ext filename) ".jpg".toList (hc _ (by decide))
  have e2 := ToLower_eq_iff lowerTbl h (Ext filename) ".jpeg".toList (hc _ (by decide))
  have e3 := ToLower_eq_iff lowerTbl h (Ext filename) ".png".toList (hc _ (by decide))
  have e4 := ToLower_eq_iff lowerTbl h (Ext filename) ".webp".toList (hc _ (by decide))
  rw [Ext_eq_extensionOf] at e1 e2 e3 e4
  unfold isAllowedImage
  rw [Ext_eq_extensionOf]
  simp only [allowedExts, List.mem_cons, List.mem_singleton, exists_eq_or_imp, exists_eq_left,
    List.not_mem_nil, false_and, exists_false, or_false]
  rw [← e1, ← e2, ← e3, ← e4]
  simp

/-! ## Facts about `strconv` -/

theorem foldl_digits_ge (cs : List Char) (n : Nat) :
    n ≤ cs.foldl (fun n c => n * 10 + (c.toNat - 0x30)) n := by
  induction cs generalizing n with
  | nil => simp
  | cons c cs ih =>
    simp only [List.foldl_cons]
    exact le_trans (by omega) (ih _)

theorem parseUintLoop_ok_iff (cs : List Char) (n v : Nat) (hn : n < 2 ^ 64) :
    parseUintLoop cs n = .ok v ↔
      (∀ c ∈ cs, isDigit c = true) ∧ v = cs.foldl (fun n c => n * 10 + (c.toNat - 0x30)) n ∧
        v < 2 ^ 64 := by
  induction cs generalizing n with
  | nil =>
    simp only [parseUintLoop, NumResult.ok.injEq, List.not_mem_nil, false_imp_iff, imp_true_iff,
      List.foldl_nil, true_and]
    constructor
    · intro h; subst h; exact ⟨rfl, hn⟩
    · intro h; exact h.1.symm
  | cons c cs ih =>
    have hge := foldl_digits_ge cs (n * 10 + (c.toNat - 0x30))
    by_cases hd : 0x30 ≤ c.toNat ∧ c.toNat ≤ 0x39
    · have hdig : isDigit c = true := by simp [isDigit, hd.1, hd.2]
      simp only [parseUintLoop, if_pos hd, List.foldl_cons, List.mem_cons, forall_eq_or_imp, hdig,
        true_and]
      by_cases hcut : cutoff10 ≤ n
      · rw [if_pos hcut]
        simp only [cutoff10] at hcut
        constructor
        · intro h; cases h
        · rintro ⟨_, h2, h3⟩; omega
      · rw [if_neg hcut]
        simp only [cutoff10] at hcut
        have hn0 : (n * 10) % 2 ^ 64 = n * 10 := Nat.mod_eq_of_lt (by omega)
        simp only [hn0]
        by_cases hov : n * 10 + (c.toNat - 0x30) < 2 ^ 64
        · have hn1 : (n * 10 + (c.toNat - 0x30)) % 2 ^ 64 = n * 10 + (c.toNat - 0x30) :=
            Nat.mod_eq_of_lt hov
          have hno : ¬ (n * 10 + (c.toNat - 0x30) < n * 10 ∨ maxUint64 < n * 10 + (c.toNat - 0x30)) := by
            simp only [maxUint64]; omega
          simp only [hn1, if_neg hno]
          exact ih _ hov
        · have hn1 : (n * 10 + (c.toNat - 0x30)) % 2 ^ 64 = n * 10 + (c.toNat - 0x30) - 2 ^ 64 := by
            rw [Nat.mod_eq_sub_mod (by omega)]
            exact Nat.mod_eq_of_lt (by omega)
          have hyes : (n * 10 + (c.toNat - 0x30) - 2 ^ 64 < n * 10 ∨
              maxUint64 < n * 10 + (c.toNat - 0x30) - 2 ^ 64) := by
            left; omega
          simp only [hn1, if_pos hyes]
          constructor
          · intro h; cases h
          · rintro ⟨_, h2, h3⟩; omega
    · have hdig : isDigit c = false := by
        simp only [isDigit, Bool.and_eq_false_iff, decide_eq_false_iff_not]
        omega
      simp only [parseUintLoop, if_neg hd, List.mem_cons, forall_eq_or_imp, hdig]
      constructor
      · intro h; cases h
      · rintro ⟨⟨h, _⟩, _⟩; cases h

theorem parseUintLoop_errRange (cs : List Char) (n u : Nat)
    (h : parseUintLoop cs n = .errRange u) : u = maxUint64 := by
  induction cs generalizing n with
  | nil => simp [parseUintLoop] at h
  | cons c cs ih =>
    simp only [parseUintLoop] at h
    split at h
    · split at h
      · cases h; rfl
      · split at h
        · cases h; rfl
        · exact ih _ h
    · cases h

theorem ParseUint_ok_iff (s : List Char) (v : Nat) :
    ParseUint s = .ok v ↔
      s ≠ [] ∧ (∀ c ∈ s, isDigit c = true) ∧ v = decimalValue s ∧ v < 2 ^ 64 := by
  unfold ParseUint decimalValue
  by_cases hs : s = []
  · simp [hs]
  · rw [if_neg hs, parseUintLoop_ok_iff s 0 v (by norm_num)]
    simp [hs]

theorem ParseUint_errRange (s : List Char) (u : Nat) (h : ParseUint s = .errRange u) :
    u = maxUint64 := by
  unfold ParseUint at h
  split at h
  · cases h
  · exact parseUintLoop_errRange _ _ _ h

theorem parseIntSigned_ok_iff (neg : Bool) (r : NumResult Nat) (v : Int)
    (hr : ∀ u, r = .errRange u → u = maxUint64) :
    parseIntSigned neg r = .ok v ↔
      ∃ un : Nat, r = .ok un ∧ v = (if neg then -(un : Int) else (un : Int)) ∧
        -(2 ^ 63) ≤ v ∧ v < 2 ^ 63 := by
  cases r with
  | errSyntax => simp [parseIntSigned]
  | errRange u =>
    have := hr u rfl
    subst this
    cases neg <;> simp [parseIntSigned, maxUint64]
  | ok un =>
    cases neg with
    | false =>
      simp only [parseIntSigned, Bool.not_false, Bool.true_and, decide_eq_true_eq, Bool.false_and,
        Bool.false_eq_true, if_false, NumResult.ok.injEq, exists_eq_left']
      by_cases h1 : 2 ^ 63 ≤ un
      · rw [if_pos h1]
        constructor
        · intro h; cases h
        · rintro ⟨h2, _, h4⟩; omega
      · rw [if_neg h1]
        have : toInt64 un = (un : Int) := by
          unfold toInt64
          have e : un % 2 ^ 64 = un := Nat.mod_eq_of_lt (by omega)
          rw [e, if_pos (by omega)]
        rw [this]
        constructor
        · intro h; injection h with h; subst h; omega
        · rintro ⟨h2, _⟩; rw [h2]
    | true =>
      simp only [parseIntSigned, Bool.not_true, Bool.false_and, Bool.false_eq_true, if_false,
        Bool.true_and, decide_eq_true_eq, if_true, NumResult.ok.injEq, exists_eq_left']
      by_cases h1 : 2 ^ 63 < un
      · rw [if_pos h1]
        constructor
        · intro h; cases h
        · rintro ⟨h2, h3, _⟩; omega
      · rw [if_neg h1]
        by_cases h2 : un = 2 ^ 63
        · subst h2
          have : negInt64 (toInt64 (2 ^ 63)) = -(2 ^ 63) := by decide
          rw [this]
          constructor
          · intro h; injection h with h; subst h; norm_num
          · rintro ⟨h2, _⟩; rw [h2]; norm_num
        · have e1 : toInt64 un = (un : Int) := by
            unfold toInt64
            have e : un % 2 ^ 64 = un := Nat.mod_eq_of_lt (by omega)
            rw [e, if_pos (by omega)]
          have e2 : negInt64 (un : Int) = -(un : Int) := by
            unfold negInt64
            rw [if_neg (by omega)]
          rw [e1, e2]
          constructor
          · intro h; injection h with h; subst h; omega
          · rintro ⟨h2, _⟩; rw [h2]

theorem ParseInt_unsigned_iff (s : List Char) (v : Int) :
    parseIntSigned false (ParseUint s) = .ok v ↔
      s ≠ [] ∧ (∀ c ∈ s, isDigit c = true) ∧ v = (decimalValue s : Int) ∧ v < 2 ^ 63 := by
  rw [parseIntSigned_ok_iff false _ v (ParseUint_errRange s)]
  constructor
  · rintro ⟨un, h1, h2, _, h4⟩
    obtain ⟨a, b, c, _⟩ := (ParseUint_ok_iff s un).mp h1
    simp only [Bool.false_eq_true, if_false] at h2
    subst c
    exact ⟨a, b, h2, h4⟩
  · rintro ⟨a, b, c, d⟩
    refine ⟨decimalValue s, (ParseUint_ok_iff s _).mpr ⟨a, b, rfl, by omega⟩, by simpa using c,
      by omega, d⟩

theorem ParseInt_negative_iff (s : List Char) (v : Int) :
    parseIntSigned true (ParseUint s) = .ok v ↔
      s ≠ [] ∧ (∀ c ∈ s, isDigit c = true) ∧ v = -(decimalValue s : Int) ∧ -(2 ^ 63) ≤ v := by
  rw [parseIntSigned_ok_iff true _ v (ParseUint_errRange s)]
  constructor
  · rintro ⟨un, h1, h2, h3, _⟩
    obtain ⟨a, b, c, _⟩ := (ParseUint_ok_iff s un).mp h1
    simp only [if_true] at h2
    subst c
    exact ⟨a, b, h2, h3⟩
  · rintro ⟨a, b, c, d⟩
    refine ⟨decimalValue s, (ParseUint_ok_iff s _).mpr ⟨a, b, rfl, by omega⟩, by simpa using c,
      d, by omega⟩

/-- Function `strconv.ParseInt(s, 10, 64)` succeeds with `v` exactly when `s` is
a base-10 integer of value `v` that fits in a signed 64-bit integer. -/
theorem ParseInt_ok_iff (s : List Char) (v : Int) :
    ParseInt s = .ok v ↔ IsDecimal s v ∧ -(2 ^ 63) ≤ v ∧ v < 2 ^ 63 := by
  cases s with
  | nil =>
    simp only [ParseInt]
    constructor
    · intro h; cases h
    · rintro ⟨⟨ds, h1, _, (⟨h3 | h3, _⟩ | ⟨h3, _⟩)⟩, _⟩
      · exact absurd h3.symm h1
      · cases h3
      · cases h3
  | cons c cs =>
    have hplus : isDigit '+' = false := by decide
    have hminus : isDigit '-' = false := by decide
    by_cases hp : c = '+'
    · subst hp
      simp only [ParseInt, if_true]
      rw [ParseInt_unsigned_iff]
      constructor
      · rintro ⟨a, b, c, d⟩
        exact ⟨⟨cs, a, b, Or.inl ⟨Or.inr rfl, c⟩⟩, by omega, d⟩
      · rintro ⟨⟨ds, h1, h2, (⟨h3 | h3, h4⟩ | ⟨h3, _⟩)⟩, _, h6⟩
        · have := h2 '+' (by rw [← h3]; simp)
          rw [hplus] at this; cases this
        · injection h3 with _ h3
          subst h3
          exact ⟨h1, h2, h4, h6⟩
        · injection h3 with h3 _
          exact absurd h3 (by decide)
    · by_cases hm : c = '-'
      · subst hm
        simp only [ParseInt, if_neg hp, if_true]
        rw [ParseInt_negative_iff]
        constructor
        · rintro ⟨a, b, c, d⟩
          exact ⟨⟨cs, a, b, Or.inr ⟨rfl, c⟩⟩, d, by omega⟩
        · rintro ⟨⟨ds, h1, h2, (⟨h3 | h3, h4⟩ | ⟨h3, h4⟩)⟩, h5, _⟩
          · have := h2 '-' (by rw [← h3]; simp)
            rw [hminus] at this; cases this
          · injection h3 with h3 _
            exact absurd h3 (by decide)
          · injection h3 with _ h3
            subst h3
            exact ⟨h1, h2, h4, h5⟩
      · simp only [ParseInt, if_neg hp, if_neg hm]
        rw [ParseInt_unsigned_iff]
        constructor
        · rintro ⟨a, b, c, d⟩
          exact ⟨⟨_, a, b, Or.inl ⟨Or.inl rfl, c⟩⟩, by omega, d⟩
        · rintro ⟨⟨ds, h1, h2, (⟨h3 | h3, h4⟩ | ⟨h3, _⟩)⟩, _, h6⟩
          · subst h3
            exact ⟨h1, h2, h4, h6⟩
          · injection h3 with h3 _
            exact absurd h3 hp
          · injection h3 with h3 _
            exact absurd h3 hm

theorem digitChar_spec (d : Nat) (hd : d < 10) :
    isDigit (digitChar d) = true ∧ (digitChar d).toNat - 0x30 = d := by
  interval_cases d <;> decide

theorem formatBits_spec (fuel u : Nat) (acc : List Char) (hf : 0 < fuel) (hu : u < 10 ^ fuel) :
    ∃ ds : List Char, formatBits fuel u acc = ds ++ acc ∧ ds ≠ [] ∧
      (∀ c ∈ ds, isDigit c = true) ∧ decimalValue ds = u := by
  induction fuel generalizing u acc with
  | zero => omega
  | succ fuel ih =>
    unfold formatBits
    by_cases h10 : u < 10
    · rw [if_pos h10]
      have hd := digitChar_spec u h10
      refine ⟨[digitChar u], rfl, by simp, ?_, ?_⟩
      · intro c hc
        simp only [List.mem_singleton] at hc
        rw [hc]; exact hd.1
      · simp [decimalValue, hd.2]
    · rw [if_neg h10]
      have hf2 : 0 < fuel := by
        rcases Nat.eq_zero_or_pos fuel with h | h
        · subst h; simp at hu; omega
        · exact h
      have hu2 : u / 10 < 10 ^ fuel := by
        rw [Nat.div_lt_iff_lt_mul (by norm_num)]
        rw [pow_succ] at hu
        exact hu
      obtain ⟨ds, h1, h2, h3, h4⟩ := ih (u / 10) (digitChar (u % 10) :: acc) hf2 hu2
      have hd := digitChar_spec (u % 10) (Nat.mod_lt _ (by norm_num))
      refine ⟨ds ++ [digitChar (u % 10)], by rw [h1]; simp, by simp, ?_, ?_⟩
      · intro c hc
        simp only [List.mem_append, List.mem_singleton] at hc
        rcases hc with hc | hc
        · exact h3 c hc
        · rw [hc]; exact hd.1
      · unfold decimalValue at h4 ⊢
        rw [List.foldl_append, h4]
        simp only [List.foldl_cons, List.foldl_nil, hd.2]
        omega

/-- Parsing what `strconv.FormatInt` printed gives the number back. -/
theorem ParseInt_FormatInt (i : Int) (h1 : -(2 ^ 63) ≤ i) (h2 : i < 2 ^ 63) :
    ParseInt (FormatInt i) = .ok i := by
  rw [ParseInt_ok_iff]
  refine ⟨?_, h1, h2⟩
  obtain ⟨ds, e1, e2, e3, e4⟩ := formatBits_spec 20 i.natAbs [] (by norm_num) (by omega)
  rw [List.append_nil] at e1
  refine ⟨ds, e2, e3, ?_⟩
  unfold FormatInt
  rw [e1, e4]
  by_cases hneg : i < 0
  · right
    rw [if_pos hneg]
    exact ⟨rfl, by omega⟩
  · left
    rw [if_neg hneg]
    exact ⟨Or.inl rfl, by omega⟩

/-! ## Facts about the response writer -/

theorem Error_code (w : ResponseWriter) (msg : List Char) (code : Nat) (hw : w.status = none) :
    (Error w msg code).code = code := by
  simp [Error, ResponseWriter.code, ResponseWriter.finish, ResponseWriter.Write,
    ResponseWriter.WriteHeader, ResponseWriter.Set, hw]

theorem Error_body (w : ResponseWriter) (msg : List Char) (code : Nat) (hw : w.fresh) :
    (Error w msg code).body = [.text (msg ++ "\n".toList)] := by
  simp [Error, ResponseWriter.Write, ResponseWriter.WriteHeader, ResponseWriter.Set, hw.1, hw.2]

theorem writeJSON_code (w : ResponseWriter) (v : JSON) (hw : w.status = none) :
    (writeJSON w v).code = 200 := by
  simp [writeJSON, ResponseWriter.code, ResponseWriter.finish, ResponseWriter.Write,
    ResponseWriter.WriteHeader, ResponseWriter.Set, hw]

theorem writeJSON_body (w : ResponseWriter) (v : JSON) (hw : w.fresh) :
    (writeJSON w v).body = [.json v] := by
  simp [writeJSON, ResponseWriter.Write, ResponseWriter.WriteHeader, ResponseWriter.Set,
    hw.1, hw.2]

theorem headerGet_set_same (h : List (List Char × List Char)) (k v : List Char) :
    headerGet (headerSet h k v) k = some v := by
  simp [headerGet, headerSet, List.lookup]

theorem headerGet_del_other (h : List (List Char × List Char)) (k k2 : List Char) (hk : k2 ≠ k) :
    headerGet (headerDel h k) k2 = headerGet h k2 := by
  induction h with
  | nil => rfl
  | cons kv h ih =>
    obtain ⟨a, b⟩ := kv
    unfold headerGet headerDel at *
    by_cases ha : a = k
    · subst ha
      have : (k2 == a) = false := by simpa using hk
      simp only [List.filter, List.lookup, this, decide_not, decide_True, Bool.not_true]
      simpa using ih
    · by_cases hb : k2 = a
      · subst hb
        simp [List.filter, List.lookup, ha]
      · have : (k2 == a) = false := by simpa using hb
        simp only [List.filter, List.lookup, ha, this, decide_not, decide_False, Bool.not_false]
        simpa using ih

theorem headerGet_set_other (h : List (List Char × List Char)) (k v k2 : List Char)
    (hk : k2 ≠ k) : headerGet (headerSet h k v) k2 = headerGet h k2 := by
  have := headerGet_del_other h k k2 hk
  have e : (k2 == k) = false := by simpa using hk
  unfold headerSet
  unfold headerGet at *
  simp [List.lookup, e, this]

theorem IsDecimal_unique (s : List Char) (v v2 : Int) (h1 : IsDecimal s v) (h2 : IsDecimal s v2) :
    v = v2 := by
  have hplus : isDigit '+' = false := by decide
  have hminus : isDigit '-' = false := by decide
  obtain ⟨ds, _, hd, hs⟩ := h1
  obtain ⟨es, _, he, ht⟩ := h2
  have key : ∀ (c : Char) (xs ys : List Char), isDigit c = false →
      (∀ x ∈ xs, isDigit x = true) → xs = c :: ys → False := by
    intro c xs ys hc hx e
    have := hx c (by rw [e]; simp)
    rw [hc] at this; cases this
  rcases hs with ⟨hs | hs, hv⟩ | ⟨hs, hv⟩ <;> rcases ht with ⟨ht | ht, hw⟩ | ⟨ht, hw⟩
  · rw [hv, hw, ← hs, ← ht]
  · exact (key '+' ds es hplus hd (hs.symm.trans ht)).elim
  · exact (key '-' ds es hminus hd (hs.symm.trans ht)).elim
  · exact (key '+' es ds hplus he (ht.symm.trans hs)).elim
  · have e := hs.symm.trans ht
    injection e with _ e
    rw [hv, hw, e]
  · have e := hs.symm.trans ht
    injection e with e _
    exact absurd e (by decide)
  · exact (key '-' es ds hminus he (ht.symm.trans hs)).elim
  · have e := hs.symm.trans ht
    injection e with e _
    exact absurd e (by decide)
  · have e := hs.symm.trans ht
    injection e with _ e
    rw [hv, hw, e]

/-- C1: a GET on `/api/posts/<s>` whose `<s>`, once trimmed, is empty, is not a
base-10 integer fitting a signed 64-bit value, or denotes a value `<= 0`, is
answered by `handlePostByID` with status 400; the world is left as it was, so
no statement reaches the database. -/
theorem handlePostByID_rejects_bad_id (env : Env) (r : Request) (w : ResponseWriter) (wd : World)
    (s : List Char) (hm : r.Method = "GET".toList) (hp : r.Path = "/api/posts/".toList ++ s)
    (hw : w.status = none)
    (hbad : TrimSpace s = [] ∨
      (¬ ∃ v : Int, IsDecimal (TrimSpace s) v ∧ -(2 ^ 63) ≤ v ∧ v < 2 ^ 63) ∨
      (∃ v : Int, IsDecimal (TrimSpace s) v ∧ v ≤ 0)) :
    (handlePostByID env r w wd).1.code = 400 ∧ (handlePostByID env r w wd).2 = wd ∧
      (handlePostByID env r w wd).2.sqlLog = wd.sqlLog := by
  have key : (handlePostByID env r w wd).1.code = 400 ∧ (handlePostByID env r w wd).2 = wd := by
    unfold handlePostByID
    rw [if_neg (by simp [hm]), hp, TrimPrefix_append]
    by_cases h0 : TrimSpace s = []
    · simp only [h0, if_true]
      exact ⟨Error_code _ _ _ hw, trivial⟩
    · simp only [h0, if_false]
      cases hparse : ParseInt (TrimSpace s) with
      | errSyntax => exact ⟨Error_code _ _ _ hw, rfl⟩
      | errRange u => exact ⟨Error_code _ _ _ hw, rfl⟩
      | ok id =>
        have hid := (ParseInt_ok_iff _ _).mp hparse
        have hle : id ≤ 0 := by
          rcases hbad with h | h | ⟨v, hv, hv0⟩
          · exact absurd h h0
          · exact absurd ⟨id, hid⟩ h
          · rw [IsDecimal_unique _ _ _ hid.1 hv]; exact hv0
        simp only [if_pos hle]
        exact ⟨Error_code _ _ _ hw, trivial⟩
  exact ⟨key.1, key.2, by rw [key.2]⟩

/-- C1 on the ids `0`, `-5` and `abc`: each request is answered with status 400
and no statement is logged. -/
theorem handlePostByID_rejects_bad_id_witness :
    ((handlePostByID Env.quiet (sampleRequest "GET" "/api/posts/0") .new World.empty).1.code = 400 ∧
      (handlePostByID Env.quiet (sampleRequest "GET" "/api/posts/0") .new World.empty).2.sqlLog = []) ∧
    ((handlePostByID Env.quiet (sampleRequest "GET" "/api/posts/-5") .new World.empty).1.code = 400 ∧
      (handlePostByID Env.quiet (sampleRequest "GET" "/api/posts/-5") .new World.empty).2.sqlLog = []) ∧
    ((handlePostByID Env.quiet (sampleRequest "GET" "/api/posts/abc") .new World.empty).1.code = 400 ∧
      (handlePostByID Env.quiet (sampleRequest "GET" "/api/posts/abc") .new World.empty).2.sqlLog = []) := by
  refine ⟨?_, ?_, ?_⟩
  · have h := handlePostByID_rejects_bad_id Env.quiet (sampleRequest "GET" "/api/posts/0") .new
      World.empty "0".toList rfl rfl rfl
      (Or.inr (Or.inr ⟨0, ⟨"0".toList, by decide, by decide, Or.inl ⟨Or.inl (by decide), by decide⟩⟩,
        le_refl _⟩))
    exact ⟨h.1, h.2.2⟩
  · have h := handlePostByID_rejects_bad_id Env.quiet (sampleRequest "GET" "/api/posts/-5") .new
      World.empty "-5".toList rfl rfl rfl
      (Or.inr (Or.inr ⟨-5, ⟨"5".toList, by decide, by decide, Or.inr ⟨by decide, by decide⟩⟩,
        by decide⟩))
    exact ⟨h.1, h.2.2⟩
  · have h := handlePostByID_rejects_bad_id Env.quiet (sampleRequest "GET" "/api/posts/abc") .new
      World.empty "abc".toList rfl rfl rfl
      (Or.inr (Or.inl (by
        rintro ⟨v, hv⟩
        have h1 := (ParseInt_ok_iff _ v).mpr hv
        have h2 : ParseInt (TrimSpace "abc".toList) = .errSyntax := by decide
        rw [h2] at h1
        cases h1)))
    exact ⟨h.1, h.2.2⟩

/-! ## The create handler -/

theorem FormFile_some (env : Env) (r : Request) (key : List Char) (fh : FileHeader)
    (h : r.FormFile env key = some fh) : ∃ rest, r.File key = fh :: rest := by
  unfold Request.FormFile at h
  split at h
  · cases h
  · split at h
    · cases h
    · injection h with h
      subst h
      exact ⟨_, by assumption⟩

/-- Every way `handleCreatePost` has of answering a request whose first image
file carries a name that `isAllowedImage` refuses is a 400 that leaves the
world alone. -/
theorem handleCreatePost_refused_name (lowerTbl : Char → Char) (env : Env) (r : Request)
    (w : ResponseWriter) (wd : World) (fh : FileHeader) (rest : List FileHeader)
    (hw : w.status = none) (hf : r.File "image".toList = fh :: rest)
    (hno : isAllowedImage lowerTbl fh.Filename = false) :
    (handleCreatePost lowerTbl env r w wd).1.code = 400 ∧
      (handleCreatePost lowerTbl env r w wd).2 = wd := by
  unfold handleCreatePost
  split
  · exact ⟨Error_code _ _ _ hw, rfl⟩
  · dsimp only
    split
    · exact ⟨Error_code _ _ _ hw, rfl⟩
    · split
      · exact ⟨Error_code _ _ _ hw, rfl⟩
      · rename_i header hh
        obtain ⟨rest2, h2⟩ := FormFile_some _ _ _ _ hh
        rw [hf] at h2
        injection h2 with h2 _
        subst h2
        simp only [hno, Bool.not_false, if_true]
        exact ⟨Error_code _ _ _ hw, trivial⟩

/-- C2: `isAllowedImage` accepts a filename exactly when its extension (the
suffix starting at the last dot of the final path element) equals one of
`.jpg`, `.jpeg`, `.png`, `.webp` up to letter case; a filename without
extension is refused; and a create request whose image carries a refused
filename is answered with status 400. -/
theorem isAllowedImage_iff_extension (lowerTbl : Char → Char) (h : LowerTableSound lowerTbl)
    (filename : List Char) :
    (isAllowedImage lowerTbl filename = true ↔
      ∃ a ∈ allowedExts, eqFold (extensionOf filename) a = true) ∧
    (extensionOf filename = [] → isAllowedImage lowerTbl filename = false) ∧
    (isAllowedImage lowerTbl filename = false →
      ∀ (env : Env) (r : Request) (w : ResponseWriter) (wd : World) (content : List Nat)
        (rest : List FileHeader), w.status = none →
        r.File "image".toList = { Filename := filename, content := content } :: rest →
        (handleCreatePost lowerTbl env r w wd).1.code = 400) := by
  refine ⟨isAllowedImage_spec lowerTbl h filename, ?_, ?_⟩
  · intro he
    cases hb : isAllowedImage lowerTbl filename with
    | false => rfl
    | true =>
      obtain ⟨a, ha, hfold⟩ := (isAllowedImage_spec lowerTbl h filename).mp hb
      rw [he] at hfold
      revert a
      decide
  · intro hno env r w wd content rest hw hf
    exact (handleCreatePost_refused_name lowerTbl env r w wd _ rest hw hf hno).1

/-- C2 on `photo.JPeG` (accepted), `x.gif` and `README` (refused, status 400). -/
theorem isAllowedImage_iff_extension_witness :
    isAllowedImage sampleLowerTbl "photo.JPeG".toList = true ∧
    isAllowedImage sampleLowerTbl "README".toList = false ∧
    (handleCreatePost sampleLowerTbl Env.quiet (sampleCreate "Hi" "x.gif") .new World.empty).1.code
      = 400 := by
  have h1 := isAllowedImage_iff_extension sampleLowerTbl sampleLowerTbl_sound "photo.JPeG".toList
  have h2 := isAllowedImage_iff_extension sampleLowerTbl sampleLowerTbl_sound "README".toList
  have h3 := isAllowedImage_iff_extension sampleLowerTbl sampleLowerTbl_sound "x.gif".toList
  refine ⟨h1.1.mpr ⟨".jpeg".toList, by decide, by decide⟩, h2.2.1 (by decide), ?_⟩
  exact h3.2.2 (by decide) Env.quiet (sampleCreate "Hi" "x.gif") .new World.empty [1, 2, 3] [] rfl
    (by decide)

/-- C3: a create request that parses, has a non-blank caption and an image
file whose name `isAllowedImage` refuses is answered with status 400 and the
message of the extension check; the world is unchanged, so no file is
written to the uploads directory and no row is inserted. -/
theorem handleCreatePost_bad_extension (lowerTbl : Char → Char) (env : Env) (r : Request)
    (w : ResponseWriter) (wd : World) (fh : FileHeader) (hw : w.fresh)
    (hparse : r.parseErr = none)
    (hcap : TrimSpace (r.FormValue "caption".toList) ≠ [])
    (hfile : r.FormFile env "image".toList = some fh)
    (hno : isAllowedImage lowerTbl fh.Filename = false) :
    (handleCreatePost lowerTbl env r w wd).1.code = 400 ∧
    (handleCreatePost lowerTbl env r w wd).1.body =
      [.text "Only JPG, PNG, WEBP images are allowed\n".toList] ∧
    (handleCreatePost lowerTbl env r w wd).2 = wd ∧
    (handleCreatePost lowerTbl env r w wd).2.uploads = wd.uploads ∧
    (handleCreatePost lowerTbl env r w wd).2.posts = wd.posts := by
  have e : handleCreatePost lowerTbl env r w wd =
      (Error w "Only JPG, PNG, WEBP images are allowed".toList 400, wd) := by
    unfold handleCreatePost
    simp only [hparse, hcap, hfile, hno, if_false, Bool.not_false, if_true]
  rw [e]
  exact ⟨Error_code _ _ _ hw.1, Error_body _ _ _ hw, rfl, rfl, rfl⟩

/-- C3 on a file named `x.gif`. -/
theorem handleCreatePost_bad_extension_witness :
    (handleCreatePost sampleLowerTbl Env.quiet (sampleCreate "Hello" "x.gif") .new World.empty).1.code
      = 400 ∧
    (handleCreatePost sampleLowerTbl Env.quiet (sampleCreate "Hello" "x.gif") .new World.empty).2
      = World.empty := by
  have h := handleCreatePost_bad_extension sampleLowerTbl Env.quiet (sampleCreate "Hello" "x.gif")
    .new World.empty { Filename := "x.gif".toList, content := [1, 2, 3] } ⟨rfl, rfl⟩ rfl
    (by decide) rfl (by decide)
  exact ⟨h.1, h.2.2.1⟩

/-- C4, as the code has it: the handler reads the caption with `r.FormValue`,
which looks at the URL query string before the multipart form. A create request
whose form parses is answered with status 400, whatever the image field holds,
when the URL query string has no `caption` parameter and the caption field of
the form is absent, empty or made of white space only, and also when the first
`caption` parameter of the URL query string is empty or white space only; the
world is unchanged, so no file is written and no row is inserted. -/
theorem handleCreatePost_blank_caption (lowerTbl : Char → Char) (env : Env) (r : Request)
    (w : ResponseWriter) (wd : World) (hw : w.fresh) (hparse : r.parseErr = none)
    (hcap : (r.Query "caption".toList = [] ∧
        (r.Value "caption".toList = [] ∨
          ∃ v rest, r.Value "caption".toList = v :: rest ∧ ∀ c ∈ v, isSpace c = true)) ∨
      (∃ v rest, r.Query "caption".toList = v :: rest ∧ ∀ c ∈ v, isSpace c = true)) :
    (handleCreatePost lowerTbl env r w wd).1.code = 400 ∧
    (handleCreatePost lowerTbl env r w wd).1.body = [.text "Caption is required\n".toList] ∧
    (handleCreatePost lowerTbl env r w wd).2 = wd ∧
    (handleCreatePost lowerTbl env r w wd).2.uploads = wd.uploads ∧
    (handleCreatePost lowerTbl env r w wd).2.posts = wd.posts := by
  have hblank : TrimSpace (r.FormValue "caption".toList) = [] := by
    rw [TrimSpace_eq_nil_iff]
    rcases hcap with ⟨hq, h | ⟨v, rest, h, hv⟩⟩ | ⟨v, rest, h, hv⟩
    · simp only [Request.FormValue, Request.Form, hq, h, List.append_nil]
      intro c hc
      cases hc
    · simp only [Request.FormValue, Request.Form, hq, h, List.nil_append]
      exact hv
    · simp only [Request.FormValue, Request.Form, h, List.cons_append]
      exact hv
  have e : handleCreatePost lowerTbl env r w wd = (Error w "Caption is required".toList 400, wd) := by
    unfold handleCreatePost
    simp only [hparse, hblank, if_true]
  rw [e]
  exact ⟨Error_code _ _ _ hw.1, Error_body _ _ _ hw, rfl, rfl, rfl⟩

/-- C4 on a form caption of blanks and tabs sent with an acceptable image, on a
request without caption field, and on a blank `caption` query parameter sent
with a good form caption: each is answered with status 400. -/
theorem handleCreatePost_blank_caption_witness :
    ((handleCreatePost sampleLowerTbl Env.quiet (sampleCreate " \t  " "a.png") .new World.empty).1.code
      = 400 ∧
    (handleCreatePost sampleLowerTbl Env.quiet (sampleCreate " \t  " "a.png") .new World.empty).2
      = World.empty) ∧
    (handleCreatePost sampleLowerTbl Env.quiet (sampleRequest "POST" "/api/posts") .new
      World.empty).1.code = 400 ∧
    (handleCreatePost sampleLowerTbl Env.quiet (sampleCreateQuery "  " "Hello" "a.png") .new
      World.empty).1.code = 400 := by
  have h := handleCreatePost_blank_caption sampleLowerTbl Env.quiet (sampleCreate " \t  " "a.png")
    .new World.empty ⟨rfl, rfl⟩ rfl
    (Or.inl ⟨rfl, Or.inr ⟨" \t  ".toList, [], by decide, by decide⟩⟩)
  have h2 := handleCreatePost_blank_caption sampleLowerTbl Env.quiet
    (sampleRequest "POST" "/api/posts") .new World.empty ⟨rfl, rfl⟩ rfl (Or.inl ⟨rfl, Or.inl rfl⟩)
  have h3 := handleCreatePost_blank_caption sampleLowerTbl Env.quiet
    (sampleCreateQuery "  " "Hello" "a.png") .new World.empty ⟨rfl, rfl⟩ rfl
    (Or.inr ⟨"  ".toList, [], by decide, by decide⟩)
  exact ⟨⟨h.1, h.2.2.1⟩, h2.1, h3.1⟩

/-- C4 as stated fails: a create request whose form parses and whose form
caption field is white space only, sent to a URL with the query parameter
`caption=FromQuery`, is answered with status 200; a file is written and a row
with the caption `FromQuery` is inserted. -/
theorem handleCreatePost_blank_form_caption_accepted :
    (sampleCreateQuery "FromQuery" "   " "a.png").parseErr = none ∧
    (sampleCreateQuery "FromQuery" "   " "a.png").Value "caption".toList = ["   ".toList] ∧
    (∀ c ∈ "   ".toList, isSpace c = true) ∧
    (handleCreatePost sampleLowerTbl Env.quiet (sampleCreateQuery "FromQuery" "   " "a.png") .new
      World.empty).1.code = 200 ∧
    (handleCreatePost sampleLowerTbl Env.quiet (sampleCreateQuery "FromQuery" "   " "a.png") .new
      World.empty).2.posts.map Post.Caption = ["FromQuery".toList] ∧
    (handleCreatePost sampleLowerTbl Env.quiet (sampleCreateQuery "FromQuery" "   " "a.png") .new
      World.empty).2.uploads = [("1700000000000000000.png".toList, [1, 2, 3])] ∧
    ¬ (∀ r : Request, r.parseErr = none →
        (r.Value "caption".toList = [] ∨
          ∃ v rest, r.Value "caption".toList = v :: rest ∧ ∀ c ∈ v, isSpace c = true) →
        (handleCreatePost sampleLowerTbl Env.quiet r .new World.empty).1.code = 400) := by
  refine ⟨rfl, by decide, by decide, by decide, by decide, by decide, ?_⟩
  intro h
  have h1 := h (sampleCreateQuery "FromQuery" "   " "a.png") rfl
    (Or.inr ⟨"   ".toList, [], by decide, by decide⟩)
  revert h1
  decide

/-- The post `handleCreatePost` returns on success. -/
theorem handleCreatePost_ok_inv (lowerTbl : Char → Char) (env : Env) (r : Request)
    (w : ResponseWriter) (wd : World) (hw : w.status = none)
    (h : (handleCreatePost lowerTbl env r w wd).1.code = 200) :
    ∃ (fh : FileHeader) (createdAt : Int),
      r.FormFile env "image".toList = some fh ∧
      isAllowedImage lowerTbl fh.Filename = true ∧
      TrimSpace (r.FormValue "caption".toList) ≠ [] ∧
      saveUpload lowerTbl env fh wd.uploads =
        (.ok (FormatInt env.now ++ ToLower lowerTbl (Ext fh.Filename)),
          writeFile wd.uploads (FormatInt env.now ++ ToLower lowerTbl (Ext fh.Filename)) fh.content) ∧
      handleCreatePost lowerTbl env r w wd =
        (writeJSON w (Post.toJSON
            { ID := wd.nextID, Caption := TrimSpace (r.FormValue "caption".toList),
              ImageURL := "/uploads/".toList ++
                (FormatInt env.now ++ ToLower lowerTbl (Ext fh.Filename)),
              CreatedAt := createdAt }),
          { posts := wd.posts ++
              [{ ID := wd.nextID, Caption := TrimSpace (r.FormValue "caption".toList),
                 ImageURL := "/uploads/".toList ++
                   (FormatInt env.now ++ ToLower lowerTbl (Ext fh.Filename)),
                 CreatedAt := env.dbNow }],
            nextID := wd.nextID + 1,
            uploads := writeFile wd.uploads
              (FormatInt env.now ++ ToLower lowerTbl (Ext fh.Filename)) fh.content,
            sqlLog := wd.sqlLog ++
              [SQL.insertPost ("/uploads/".toList ++
                  (FormatInt env.now ++ ToLower lowerTbl (Ext fh.Filename)))
                (TrimSpace (r.FormValue "caption".toList))] ++
              [SQL.selectCreatedAt wd.nextID] }) := by
  have hE : ∀ (msg : List Char) (code : Nat), code ≠ 200 → (Error w msg code).code ≠ 200 := by
    intro msg code hc
    rw [Error_code _ _ _ hw]; exact hc
  unfold handleCreatePost at h ⊢
  cases hp : r.parseErr with
  | some e =>
    simp only [hp] at h
    exact absurd h (hE _ _ (by decide))
  | none =>
    simp only [hp] at h ⊢
    by_cases hc : TrimSpace (r.FormValue "caption".toList) = []
    · simp only [hc, if_true] at h
      exact absurd h (hE _ _ (by decide))
    · simp only [hc, if_false] at h ⊢
      cases hf : r.FormFile env "image".toList with
      | none =>
        simp only [hf] at h
        exact absurd h (hE _ _ (by decide))
      | some fh =>
        simp only [hf] at h ⊢
        cases ha : isAllowedImage lowerTbl fh.Filename with
        | false =>
          simp only [ha, Bool.not_false, if_true] at h
          exact absurd h (hE _ _ (by decide))
        | true =>
          simp only [ha, Bool.not_true, Bool.false_eq_true, if_false] at h ⊢
          unfold saveUpload at h ⊢
          cases hcr : env.createErr with
          | some e =>
            simp only [hcr] at h
            exact absurd h (hE _ _ (by decide))
          | none =>
            simp only [hcr] at h ⊢
            cases hcp : env.copyErr with
            | some e =>
              simp only [hcp] at h
              exact absurd h (hE _ _ (by decide))
            | none =>
              simp only [hcp] at h ⊢
              cases hex : env.execErr with
              | some e =>
                simp only [hex] at h
                exact absurd h (hE _ _ (by decide))
              | none =>
                simp only [hex]
                exact ⟨fh, _, rfl, ha, hc, trivial, rfl⟩

/-! ## Listing -/

theorem appendPost_eq (acc : Option (List Post)) (p : Post) :
    appendPost acc p = some (acc.getD [] ++ [p]) := by
  cases acc <;> rfl

theorem scanRows_ok (se : Option (Nat × List Char)) (rows : List Post) (i : Nat)
    (acc res : Option (List Post)) (h : scanRows se rows i acc = .ok res) :
    res = if rows = [] then acc else some (acc.getD [] ++ rows) := by
  induction rows generalizing i acc with
  | nil =>
    simp only [scanRows] at h
    injection h with h
    simp [h]
  | cons p rest ih =>
    have step : scanRows se rest (i + 1) (appendPost acc p) = .ok res := by
      unfold scanRows at h
      split at h
      · split at h
        · cases h
        · exact h
      · exact h
    have := ih _ _ step
    rw [this, appendPost_eq]
    by_cases hr : rest = []
    · simp [hr]
    · simp [hr]

theorem scanRows_none (rows : List Post) (i : Nat) (acc : Option (List Post)) :
    scanRows none rows i acc = .ok (if rows = [] then acc else some (acc.getD [] ++ rows)) := by
  induction rows generalizing i acc with
  | nil => simp [scanRows]
  | cons p rest ih =>
    unfold scanRows
    rw [ih, appendPost_eq]
    by_cases hr : rest = []
    · simp [hr]
    · simp [hr]

theorem idOf_toJSON (p : Post) : JSON.idOf p.toJSON = some p.ID := by
  simp only [Post.toJSON, JSON.idOf]
  rfl

theorem filterMap_idOf (ps : List Post) :
    (ps.map Post.toJSON).filterMap JSON.idOf = ps.map Post.ID := by
  induction ps with
  | nil => rfl
  | cons p t ih => simp only [List.map_cons, List.filterMap_cons, idOf_toJSON, ih]

/-- What `handleGetPosts` answers: an error, or the rows of the query. -/
theorem handleGetPosts_cases (env : Env) (r : Request) (w : ResponseWriter) (wd : World) :
    (∃ msg, (handleGetPosts env r w wd).1 = Error w msg 500) ∨
    (env.queryErr = none ∧
      (handleGetPosts env r w wd).1 = writeJSON w (slicePostsJSON
        (if selectRecent wd.posts = [] then none else some (selectRecent wd.posts)))) := by
  unfold handleGetPosts
  cases hq : env.queryErr with
  | some e => exact Or.inl ⟨_, rfl⟩
  | none =>
    dsimp only
    cases hs : scanRows env.scanErr (selectRecent wd.posts) 0 none with
    | error e => exact Or.inl ⟨_, rfl⟩
    | ok res =>
      right
      have := scanRows_ok _ _ _ _ _ hs
      simp only [Option.getD_none, List.nil_append] at this
      rw [this]
      exact ⟨rfl, rfl⟩

theorem listedIDs_Error (w : ResponseWriter) (msg : List Char) (code : Nat) (hw : w.fresh) :
    listedIDs (Error w msg code) = [] := by
  unfold listedIDs
  rw [Error_body _ _ _ hw]

theorem listedIDs_writeJSON (w : ResponseWriter) (ps : List Post) (hw : w.fresh) :
    listedIDs (writeJSON w (slicePostsJSON (if ps = [] then none else some ps)))
      = ps.map Post.ID := by
  unfold listedIDs
  rw [writeJSON_body _ _ hw]
  by_cases h : ps = []
  · subst h; rfl
  · rw [if_neg h]
    simp only [slicePostsJSON]
    exact filterMap_idOf ps

theorem sorted_desc (posts : List Post) :
    (posts.insertionSort (fun a b => b.ID ≤ a.ID)).Pairwise (fun a b => b.ID ≤ a.ID) := by
  haveI : IsTotal Post (fun a b => b.ID ≤ a.ID) := ⟨fun a b => le_total b.ID a.ID⟩
  haveI : IsTrans Post (fun a b => b.ID ≤ a.ID) := ⟨fun a b c h1 h2 => le_trans h2 h1⟩
  exact List.sorted_insertionSort (fun a b => b.ID ≤ a.ID) posts

theorem sorted_strict (posts : List Post) (hn : (posts.map Post.ID).Nodup) :
    (posts.insertionSort (fun a b => b.ID ≤ a.ID)).Pairwise (fun a b => b.ID < a.ID) := by
  have h1 := sorted_desc posts
  have hp := List.perm_insertionSort (fun a b => b.ID ≤ a.ID) posts
  have h2 : ((posts.insertionSort (fun a b => b.ID ≤ a.ID)).map Post.ID).Nodup :=
    (hp.map Post.ID).nodup_iff.mpr hn
  rw [List.Nodup, List.pairwise_map] at h2
  exact (h1.and h2).imp (fun ⟨a, b⟩ => lt_of_le_of_ne a (Ne.symm b))

/-- C7: whatever the store and the environment, the posts listed by
`GET /api/posts` are at most 100, come from the store, and are in strictly
descending order of id; when the backend answers, the answer is a 200 listing
`min 100 n` of the `n` posts, and every post left out has a smaller id than
every post listed. -/
theorem handleGetPosts_recent (env : Env) (r : Request) (w : ResponseWriter) (wd : World)
    (hw : w.fresh) (hwf : wd.wf) :
    (∃ L : List Post, L.map Post.ID = listedIDs (handleGetPosts env r w wd).1 ∧
      (L = [] ∨ (handleGetPosts env r w wd).1.body = [.json (.arr (L.map Post.toJSON))])) ∧
    (listedIDs (handleGetPosts env r w wd).1).length ≤ 100 ∧
    (listedIDs (handleGetPosts env r w wd).1).Pairwise (fun a b => b < a) ∧
    (∀ i ∈ listedIDs (handleGetPosts env r w wd).1, i ∈ wd.posts.map Post.ID) ∧
    (env.queryErr = none → env.scanErr = none →
      (handleGetPosts env r w wd).1.code = 200 ∧
      (listedIDs (handleGetPosts env r w wd).1).length = min 100 wd.posts.length ∧
      ∀ j ∈ wd.posts.map Post.ID, j ∉ listedIDs (handleGetPosts env r w wd).1 →
        ∀ i ∈ listedIDs (handleGetPosts env r w wd).1, j < i) := by
  have hperm := List.perm_insertionSort (fun a b : Post => b.ID ≤ a.ID) wd.posts
  have hstrict := sorted_strict wd.posts hwf.2.2.2
  have hsel : (selectRecent wd.posts).Pairwise (fun a b => b.ID < a.ID) :=
    hstrict.sublist (List.take_sublist _ _)
  have hmem : ∀ p ∈ selectRecent wd.posts, p ∈ wd.posts := fun p hp =>
    hperm.subset (List.mem_of_mem_take hp)
  have hgood : ∀ ids : List Int, (ids = [] ∨ ids = (selectRecent wd.posts).map Post.ID) →
      ids.length ≤ 100 ∧ ids.Pairwise (fun a b => b < a) ∧ ∀ i ∈ ids, i ∈ wd.posts.map Post.ID := by
    rintro ids (h | h)
    · subst h; simp
    · subst h
      refine ⟨by simp [selectRecent, List.length_take], ?_, ?_⟩
      · rw [List.pairwise_map]; exact hsel
      · intro i hi
        obtain ⟨p, hp, rfl⟩ := List.mem_map.mp hi
        exact List.mem_map.mpr ⟨p, hmem p hp, rfl⟩
  have hcases := handleGetPosts_cases env r w wd
  have hids : listedIDs (handleGetPosts env r w wd).1 = [] ∨
      listedIDs (handleGetPosts env r w wd).1 = (selectRecent wd.posts).map Post.ID := by
    rcases hcases with ⟨msg, e⟩ | ⟨_, e⟩
    · left; rw [e]; exact listedIDs_Error _ _ _ hw
    · right; rw [e]; exact listedIDs_writeJSON _ _ hw
  obtain ⟨g1, g2, g3⟩ := hgood _ hids
  refine ⟨?_, g1, g2, g3, ?_⟩
  · rcases hcases with ⟨msg, e⟩ | ⟨_, e⟩
    · exact ⟨[], by rw [e, listedIDs_Error _ _ _ hw]; rfl, Or.inl rfl⟩
    · refine ⟨selectRecent wd.posts, by rw [e, listedIDs_writeJSON _ _ hw], ?_⟩
      by_cases hnil : selectRecent wd.posts = []
      · exact Or.inl hnil
      · right
        rw [e, writeJSON_body _ _ hw, if_neg hnil]
        rfl
  · intro hq hs
    have e : (handleGetPosts env r w wd).1 = writeJSON w (slicePostsJSON
        (if selectRecent wd.posts = [] then none else some (selectRecent wd.posts))) := by
      unfold handleGetPosts
      simp only [hq, hs, scanRows_none, Option.getD_none, List.nil_append]
    rw [e, listedIDs_writeJSON _ _ hw]
    refine ⟨writeJSON_code _ _ hw.1, ?_, ?_⟩
    · simp [selectRecent, List.length_take, hperm.length_eq]
    · intro j hj hnot i hi
      obtain ⟨p, hp, rfl⟩ := List.mem_map.mp hj
      obtain ⟨q, hq2, rfl⟩ := List.mem_map.mp hi
      have hp2 : p ∈ wd.posts.insertionSort (fun a b => b.ID ≤ a.ID) := hperm.symm.subset hp
      rw [← List.take_append_drop 100 (wd.posts.insertionSort (fun a b => b.ID ≤ a.ID))] at hp2 hstrict
      rcases List.mem_append.mp hp2 with h1 | h1
      · exact absurd (List.mem_map.mpr ⟨p, h1, rfl⟩) hnot
      · exact (List.pairwise_append.mp hstrict).2.2 q hq2 p h1

/-- C7 on a store holding the posts 1 and 2: they are listed as 2, 1. -/
theorem handleGetPosts_recent_witness :
    listedIDs (handleGetPosts Env.quiet (sampleRequest "GET" "/api/posts") .new World.sample).1
      = [2, 1] ∧
    (listedIDs (handleGetPosts Env.quiet (sampleRequest "GET" "/api/posts") .new
      World.sample).1).Pairwise (fun a b => b < a) := by
  have h := handleGetPosts_recent Env.quiet (sampleRequest "GET" "/api/posts") .new World.sample
    ⟨rfl, rfl⟩ (by
      refine ⟨by decide, by decide, ?_, by decide⟩
      decide)
  exact ⟨by decide, h.2.2.1⟩

/-! ## The store stays well formed -/

theorem World.empty_wf : World.empty.wf := by
  refine ⟨by decide, by decide, ?_, by decide⟩
  intro p hp
  cases hp

/-- A create either leaves the table alone or appends one row under the next id. -/
theorem handleCreatePost_table (lowerTbl : Char → Char) (env : Env) (r : Request)
    (w : ResponseWriter) (wd : World) :
    ((handleCreatePost lowerTbl env r w wd).2.posts = wd.posts ∧
      (handleCreatePost lowerTbl env r w wd).2.nextID = wd.nextID) ∨
    (∃ row : Post, row.ID = wd.nextID ∧
      (handleCreatePost lowerTbl env r w wd).2.posts = wd.posts ++ [row] ∧
      (handleCreatePost lowerTbl env r w wd).2.nextID = wd.nextID + 1) := by
  unfold handleCreatePost
  split
  · exact Or.inl ⟨rfl, rfl⟩
  · dsimp only
    split
    · exact Or.inl ⟨rfl, rfl⟩
    · split
      · exact Or.inl ⟨rfl, rfl⟩
      · split
        · exact Or.inl ⟨rfl, rfl⟩
        · split
          · exact Or.inl ⟨rfl, rfl⟩
          · split
            · exact Or.inl ⟨rfl, rfl⟩
            · exact Or.inr ⟨_, rfl, rfl, rfl⟩

/-- Creating posts keeps the store well formed while the counter stays an `int64`. -/
theorem handleCreatePost_wf (lowerTbl : Char → Char) (env : Env) (r : Request)
    (w : ResponseWriter) (wd : World) (hwf : wd.wf) (hroom : wd.nextID + 1 < 2 ^ 63) :
    (handleCreatePost lowerTbl env r w wd).2.wf := by
  obtain ⟨h0, h1, h2, h3⟩ := hwf
  rcases handleCreatePost_table lowerTbl env r w wd with ⟨e1, e2⟩ | ⟨row, hid, e1, e2⟩
  · unfold World.wf
    rw [e1, e2]
    exact ⟨h0, h1, h2, h3⟩
  · unfold World.wf
    rw [e1, e2]
    refine ⟨by omega, hroom, ?_, ?_⟩
    · intro p hp
      rcases List.mem_append.mp hp with hp | hp
      · have := h2 p hp
        omega
      · simp only [List.mem_singleton] at hp
        subst hp
        omega
    · rw [List.map_append, List.nodup_append]
      refine ⟨h3, by simp, ?_⟩
      intro a ha hb
      simp only [List.map_cons, List.map_nil, List.mem_singleton] at hb
      obtain ⟨p, hp, rfl⟩ := List.mem_map.mp ha
      have := h2 p hp
      omega

/-- The read handlers do not touch the table or the uploads. -/
theorem read_handlers_keep_store (env : Env) (r : Request) (w : ResponseWriter) (wd : World) :
    ((handleGetPosts env r w wd).2.posts = wd.posts ∧
      (handleGetPosts env r w wd).2.nextID = wd.nextID ∧
      (handleGetPosts env r w wd).2.uploads = wd.uploads) ∧
    ((handlePostByID env r w wd).2.posts = wd.posts ∧
      (handlePostByID env r w wd).2.nextID = wd.nextID ∧
      (handlePostByID env r w wd).2.uploads = wd.uploads) := by
  constructor
  · unfold handleGetPosts
    split
    · exact ⟨rfl, rfl, rfl⟩
    · split <;> exact ⟨rfl, rfl, rfl⟩
  · unfold handlePostByID
    split
    · exact ⟨rfl, rfl, rfl⟩
    · dsimp only
      split
      · exact ⟨rfl, rfl, rfl⟩
      · split
        · exact ⟨rfl, rfl, rfl⟩
        · exact ⟨rfl, rfl, rfl⟩
        · split
          · exact ⟨rfl, rfl, rfl⟩
          · split
            · exact ⟨rfl, rfl, rfl⟩
            · split <;> exact ⟨rfl, rfl, rfl⟩

/-- With at least one post and a backend that answers, the listing is a JSON
array. -/
theorem handleGetPosts_nonempty_array (env : Env) (r : Request) (w : ResponseWriter)
    (wd : World) (hw : w.fresh) (hq : env.queryErr = none) (hs : env.scanErr = none)
    (hne : wd.posts ≠ []) :
    (handleGetPosts env r w wd).1.code = 200 ∧
    (handleGetPosts env r w wd).1.body =
      [.json (.arr ((selectRecent wd.posts).map Post.toJSON))] := by
  have hsel : selectRecent wd.posts ≠ [] := by
    intro h
    have hl := congrArg List.length h
    have hp := (List.perm_insertionSort (fun a b : Post => b.ID ≤ a.ID) wd.posts).length_eq
    simp only [selectRecent, List.length_take, List.length_nil, hp] at hl
    have : 0 < wd.posts.length := List.length_pos.mpr hne
    omega
  have e : (handleGetPosts env r w wd).1 = writeJSON w (slicePostsJSON
      (if selectRecent wd.posts = [] then none else some (selectRecent wd.posts))) := by
    unfold handleGetPosts
    simp only [hq, hs, scanRows_none, Option.getD_none, List.nil_append]
  rw [e, if_neg hsel]
  exact ⟨writeJSON_code _ _ hw.1, writeJSON_body _ _ hw⟩

theorem TrimSpace_of_no_space (s : List Char) (h : ∀ c ∈ s, isSpace c = false) :
    TrimSpace s = s := by
  have h1 : s.dropWhile isSpace = s := by
    cases s with
    | nil => rfl
    | cons a t => simp [List.dropWhile, h a (by simp)]
  unfold TrimSpace
  rw [h1, List.rdropWhile_eq_self_iff]
  intro hl
  rw [h _ (List.getLast_mem hl)]
  simp

theorem isDigit_not_space (c : Char) (h : isDigit c = true) : isSpace c = false := by
  simp only [isDigit, Bool.and_eq_true, decide_eq_true_eq] at h
  simp only [isSpace, Bool.or_eq_false_iff, Bool.and_eq_false_iff, decide_eq_false_iff_not,
    beq_eq_false_iff_ne, ne_eq]
  omega

/-- A positive `int64` printed by `strconv.FormatInt` passes through the id
parsing of `handlePostByID` unchanged. -/
theorem parse_id_of_FormatInt (i : Int) (h0 : 0 < i) (h1 : i < 2 ^ 63) :
    TrimSpace (FormatInt i) ≠ [] ∧ ParseInt (TrimSpace (FormatInt i)) = .ok i := by
  obtain ⟨ds, e1, e2, e3, _⟩ := formatBits_spec 20 i.natAbs [] (by norm_num) (by omega)
  rw [List.append_nil] at e1
  have hf : FormatInt i = ds := by
    unfold FormatInt
    rw [if_neg (by omega), e1]
  have ht : TrimSpace (FormatInt i) = FormatInt i := by
    rw [hf]
    exact TrimSpace_of_no_space ds (fun c hc => isDigit_not_space c (e3 c hc))
  rw [ht]
  exact ⟨by rw [hf]; exact e2, ParseInt_FormatInt i (by omega) h1⟩

theorem find_new_post (posts : List Post) (p : Post) (h : ∀ q ∈ posts, q.ID ≠ p.ID) :
    (posts ++ [p]).find? (fun q => q.ID = p.ID) = some p := by
  induction posts with
  | nil => simp [List.find?]
  | cons a t ih =>
    have ha : ¬ a.ID = p.ID := h a (by simp)
    have := ih (fun q hq => h q (by simp [hq]))
    simp only [List.cons_append, List.find?, ha, decide_False]
    exact this

theorem strMember_caption (p : Post) :
    (Post.toJSON p).strMember "caption".toList = some p.Caption := by
  simp only [Post.toJSON, JSON.strMember, JSON.member]
  rfl

theorem strMember_imageUrl (p : Post) :
    (Post.toJSON p).strMember "imageUrl".toList = some p.ImageURL := by
  simp only [Post.toJSON, JSON.strMember, JSON.member]
  rfl

/-- Reading back the members of a post written by `writeJSON`. -/
theorem returned_writeJSON (w : ResponseWriter) (p : Post) (hw : w.fresh) :
    returnedID (writeJSON w p.toJSON) = some p.ID ∧
    returnedCaption (writeJSON w p.toJSON) = some p.Caption ∧
    returnedImageURL (writeJSON w p.toJSON) = some p.ImageURL := by
  unfold returnedID returnedCaption returnedImageURL
  rw [writeJSON_body _ _ hw]
  exact ⟨idOf_toJSON p, strMember_caption p, strMember_imageUrl p⟩

/-- C6: when a create succeeds on a well-formed store, its response body
carries a post with an id `i`, a caption and an imageUrl; a GET on `/api/posts/`
followed by the decimal text of `i`, run on the resulting store with a backend
that answers the lookup, is answered with status 200 and a body whose `id`,
`caption` and `imageUrl` members are identical to those of the create
response. -/
theorem create_then_get (lowerTbl : Char → Char) (env : Env) (r : Request)
    (w : ResponseWriter) (wd : World) (hw : w.fresh) (hwf : wd.wf)
    (h : (handleCreatePost lowerTbl env r w wd).1.code = 200) :
    ∃ p : Post,
      (handleCreatePost lowerTbl env r w wd).1.body = [.json p.toJSON] ∧
      returnedID (handleCreatePost lowerTbl env r w wd).1 = some p.ID ∧
      returnedCaption (handleCreatePost lowerTbl env r w wd).1 = some p.Caption ∧
      returnedImageURL (handleCreatePost lowerTbl env r w wd).1 = some p.ImageURL ∧
      p.ID = wd.nextID ∧
      ∀ (env2 : Env) (r2 : Request) (w2 : ResponseWriter), w2.fresh → env2.queryErr = none →
        r2.Method = "GET".toList → r2.Path = "/api/posts/".toList ++ FormatInt p.ID →
        (handlePostByID env2 r2 w2 (handleCreatePost lowerTbl env r w wd).2).1.code = 200 ∧
        returnedID (handlePostByID env2 r2 w2 (handleCreatePost lowerTbl env r w wd).2).1
          = some p.ID ∧
        returnedCaption (handlePostByID env2 r2 w2 (handleCreatePost lowerTbl env r w wd).2).1
          = some p.Caption ∧
        returnedImageURL (handlePostByID env2 r2 w2 (handleCreatePost lowerTbl env r w wd).2).1
          = some p.ImageURL ∧
        ∃ q : Post,
          (handlePostByID env2 r2 w2 (handleCreatePost lowerTbl env r w wd).2).1.body
            = [.json q.toJSON] ∧
          q.ID = p.ID ∧ q.Caption = p.Caption ∧ q.ImageURL = p.ImageURL := by
  obtain ⟨fh, createdAt, _, _, hcap, _, e⟩ := handleCreatePost_ok_inv lowerTbl env r w wd hw.1 h
  rw [e]
  have hret := returned_writeJSON w
    { ID := wd.nextID, Caption := TrimSpace (r.FormValue "caption".toList),
      ImageURL := "/uploads/".toList ++ (FormatInt env.now ++ ToLower lowerTbl (Ext fh.Filename)),
      CreatedAt := createdAt } hw
  refine ⟨_, writeJSON_body _ _ hw, hret.1, hret.2.1, hret.2.2, rfl, ?_⟩
  intro env2 r2 w2 hw2 hq hm hp
  obtain ⟨h0, h1, h2, _⟩ := hwf
  obtain ⟨hne, hparse⟩ := parse_id_of_FormatInt wd.nextID h0 h1
  have hfind := find_new_post wd.posts
    { ID := wd.nextID, Caption := TrimSpace (r.FormValue "caption".toList),
      ImageURL := "/uploads/".toList ++ (FormatInt env.now ++ ToLower lowerTbl (Ext fh.Filename)),
      CreatedAt := env.dbNow }
    (fun q hq => by have := (h2 q hq).2; dsimp only; omega)
  have hret2 := returned_writeJSON w2
    { ID := wd.nextID, Caption := TrimSpace (r.FormValue "caption".toList),
      ImageURL := "/uploads/".toList ++ (FormatInt env.now ++ ToLower lowerTbl (Ext fh.Filename)),
      CreatedAt := env.dbNow } hw2
  dsimp only at hp hfind hret2 ⊢
  unfold handlePostByID
  rw [if_neg (by simp [hm]), hp, TrimPrefix_append]
  simp only [hne, if_false, hparse, if_neg (not_le.mpr h0), hq, hfind]
  exact ⟨writeJSON_code _ _ hw2.1, hret2.1, hret2.2.1, hret2.2.2, _, writeJSON_body _ _ hw2,
    rfl, rfl, rfl⟩

/-- C6 on the empty store: the post created first has id 1, and the body of
the GET on `/api/posts/1` carries the caption `Hello` and the imageUrl
`/uploads/1700000000000000000.png` of the create response. -/
theorem create_then_get_witness :
    (handlePostByID Env.quiet (sampleRequest "GET" "/api/posts/1") .new
      (handleCreatePost sampleLowerTbl Env.quiet (sampleCreate "Hello" "a.png") .new
        World.empty).2).1.code = 200 ∧
    returnedCaption (handleCreatePost sampleLowerTbl Env.quiet (sampleCreate "Hello" "a.png") .new
      World.empty).1 = some "Hello".toList ∧
    returnedCaption (handlePostByID Env.quiet (sampleRequest "GET" "/api/posts/1") .new
      (handleCreatePost sampleLowerTbl Env.quiet (sampleCreate "Hello" "a.png") .new
        World.empty).2).1 = some "Hello".toList ∧
    returnedImageURL (handleCreatePost sampleLowerTbl Env.quiet (sampleCreate "Hello" "a.png") .new
      World.empty).1 = some "/uploads/1700000000000000000.png".toList ∧
    returnedImageURL (handlePostByID Env.quiet (sampleRequest "GET" "/api/posts/1") .new
      (handleCreatePost sampleLowerTbl Env.quiet (sampleCreate "Hello" "a.png") .new
        World.empty).2).1 = some "/uploads/1700000000000000000.png".toList := by
  obtain ⟨p, _, _, hc, hu, hid, hget⟩ := create_then_get sampleLowerTbl Env.quiet
    (sampleCreate "Hello" "a.png") .new World.empty ⟨rfl, rfl⟩ (by
      refine ⟨by decide, by decide, ?_, by decide⟩
      intro p hp
      cases hp) (by decide)
  obtain ⟨g1, _, g3, g4, _⟩ := hget Env.quiet (sampleRequest "GET" "/api/posts/1") .new
    ⟨rfl, rfl⟩ rfl rfl (by rw [hid]; decide)
  have ec : returnedCaption (handleCreatePost sampleLowerTbl Env.quiet
      (sampleCreate "Hello" "a.png") .new World.empty).1 = some "Hello".toList := by decide
  have eu : returnedImageURL (handleCreatePost sampleLowerTbl Env.quiet
      (sampleCreate "Hello" "a.png") .new World.empty).1
        = some "/uploads/1700000000000000000.png".toList := by decide
  exact ⟨g1, ec, by rw [g3, ← hc, ec], eu, by rw [g4, ← hu, eu]⟩

/-! ## Cross-origin headers -/

theorem Error_keeps (w : ResponseWriter) (msg : List Char) (code : Nat) (k : List Char)
    (hw : w.status = none) (h1 : k ≠ "Content-Length".toList) (h2 : k ≠ "Content-Type".toList)
    (h3 : k ≠ "X-Content-Type-Options".toList) :
    headerGet (Error w msg code).finish.wire k = headerGet w.header k := by
  simp only [Error, ResponseWriter.finish, ResponseWriter.Write, ResponseWriter.WriteHeader,
    ResponseWriter.Set, hw]
  rw [headerGet_set_other _ _ _ _ h3, headerGet_set_other _ _ _ _ h2, headerGet_del_other _ _ _ h1]

theorem writeJSON_keeps (w : ResponseWriter) (v : JSON) (k : List Char)
    (hw : w.status = none) (h2 : k ≠ "Content-Type".toList) :
    headerGet (writeJSON w v).finish.wire k = headerGet w.header k := by
  simp only [writeJSON, ResponseWriter.finish, ResponseWriter.Write, ResponseWriter.WriteHeader,
    ResponseWriter.Set, hw]
  rw [headerGet_set_other _ _ _ _ h2]

/-- Each API handler answers through `http.Error` or through `writeJSON`. -/
theorem handlePostByID_shape (env : Env) (r : Request) (w : ResponseWriter) (wd : World) :
    (∃ msg code, (handlePostByID env r w wd).1 = Error w msg code) ∨
    (∃ v, (handlePostByID env r w wd).1 = writeJSON w v) := by
  unfold handlePostByID
  split
  · exact Or.inl ⟨_, _, rfl⟩
  · dsimp only
    split
    · exact Or.inl ⟨_, _, rfl⟩
    · split
      · exact Or.inl ⟨_, _, rfl⟩
      · exact Or.inl ⟨_, _, rfl⟩
      · split
        · exact Or.inl ⟨_, _, rfl⟩
        · split
          · exact Or.inl ⟨_, _, rfl⟩
          · split
            · exact Or.inl ⟨_, _, rfl⟩
            · exact Or.inr ⟨_, rfl⟩

theorem handleCreatePost_shape (lowerTbl : Char → Char) (env : Env) (r : Request)
    (w : ResponseWriter) (wd : World) :
    (∃ msg code, (handleCreatePost lowerTbl env r w wd).1 = Error w msg code) ∨
    (∃ v, (handleCreatePost lowerTbl env r w wd).1 = writeJSON w v) := by
  unfold handleCreatePost
  split
  · exact Or.inl ⟨_, _, rfl⟩
  · dsimp only
    split
    · exact Or.inl ⟨_, _, rfl⟩
    · split
      · exact Or.inl ⟨_, _, rfl⟩
      · split
        · exact Or.inl ⟨_, _, rfl⟩
        · split
          · exact Or.inl ⟨_, _, rfl⟩
          · split
            · exact Or.inl ⟨_, _, rfl⟩
            · exact Or.inr ⟨_, rfl⟩

theorem handlePosts_shape (lowerTbl : Char → Char) (env : Env) (r : Request)
    (w : ResponseWriter) (wd : World) :
    (∃ msg code, (handlePosts lowerTbl env r w wd).1 = Error w msg code) ∨
    (∃ v, (handlePosts lowerTbl env r w wd).1 = writeJSON w v) := by
  unfold handlePosts
  split
  · rcases handleGetPosts_cases env r w wd with ⟨msg, e⟩ | ⟨_, e⟩
    · exact Or.inl ⟨_, _, e⟩
    · exact Or.inr ⟨_, e⟩
  · split
    · exact handleCreatePost_shape lowerTbl env r w wd
    · exact Or.inl ⟨_, _, rfl⟩

theorem keeps_of_shape (next : Handler) (k : List Char)
    (hs : ∀ env r w wd, (∃ msg code, (next env r w wd).1 = Error w msg code) ∨
      (∃ v, (next env r w wd).1 = writeJSON w v))
    (h1 : k ≠ "Content-Length".toList) (h2 : k ≠ "Content-Type".toList)
    (h3 : k ≠ "X-Content-Type-Options".toList) : KeepsHeader next k := by
  intro env r w wd v hw hv
  rcases hs env r w wd with ⟨msg, code, e⟩ | ⟨j, e⟩
  · rw [e, Error_keeps _ _ _ _ hw h1 h2 h3]; exact hv
  · rw [e, writeJSON_keeps _ _ _ hw h2]; exact hv

/-- The API handlers of `main.go` leave the cross-origin headers in place. -/
theorem handlers_keep_cors (lowerTbl : Char → Char) :
    (KeepsHeader (handlePosts lowerTbl) "Access-Control-Allow-Origin".toList ∧
      KeepsHeader (handlePosts lowerTbl) "Access-Control-Allow-Methods".toList ∧
      KeepsHeader (handlePosts lowerTbl) "Access-Control-Allow-Headers".toList) ∧
    (KeepsHeader handlePostByID "Access-Control-Allow-Origin".toList ∧
      KeepsHeader handlePostByID "Access-Control-Allow-Methods".toList ∧
      KeepsHeader handlePostByID "Access-Control-Allow-Headers".toList) := by
  refine ⟨⟨?_, ?_, ?_⟩, ⟨?_, ?_, ?_⟩⟩
  all_goals first
    | exact keeps_of_shape _ _ (handlePosts_shape lowerTbl) (by decide) (by decide) (by decide)
    | exact keeps_of_shape _ _ handlePostByID_shape (by decide) (by decide) (by decide)

theorem cors_set (w : ResponseWriter) :
    let w3 := ((w.Set "Access-Control-Allow-Origin".toList "*".toList).Set
      "Access-Control-Allow-Methods".toList "GET,POST,OPTIONS".toList).Set
      "Access-Control-Allow-Headers".toList "Content-Type".toList
    w3.status = w.status ∧ w3.body = w.body ∧
    headerGet w3.header "Access-Control-Allow-Origin".toList = some "*".toList ∧
    headerGet w3.header "Access-Control-Allow-Methods".toList = some "GET,POST,OPTIONS".toList ∧
    headerGet w3.header "Access-Control-Allow-Headers".toList = some "Content-Type".toList := by
  refine ⟨rfl, rfl, ?_, ?_, ?_⟩
  · simp only [ResponseWriter.Set]
    rw [headerGet_set_other _ _ _ _ (by decide), headerGet_set_other _ _ _ _ (by decide),
      headerGet_set_same]
  · simp only [ResponseWriter.Set]
    rw [headerGet_set_other _ _ _ _ (by decide), headerGet_set_same]
  · simp only [ResponseWriter.Set]
    rw [headerGet_set_same]

/-- C8: a response that went through `withCORS` carries
`Access-Control-Allow-Origin: *`, `Access-Control-Allow-Methods: GET,POST,OPTIONS`
and `Access-Control-Allow-Headers: Content-Type`, whatever the method and the
path, as long as the wrapped handler leaves these three headers alone; and an
OPTIONS request is answered with status 204, the three headers and an empty
body, the world untouched and the wrapped handler not consulted (any other
wrapped handler gives the same result). -/
theorem withCORS_headers (next : Handler) (env : Env) (r : Request) (w : ResponseWriter)
    (wd : World) (hw : w.fresh) :
    ((KeepsHeader next "Access-Control-Allow-Origin".toList ∧
      KeepsHeader next "Access-Control-Allow-Methods".toList ∧
      KeepsHeader next "Access-Control-Allow-Headers".toList) →
        hasCORS (withCORS next env r w wd).1) ∧
    (r.Method = "OPTIONS".toList →
      hasCORS (withCORS next env r w wd).1 ∧
      (withCORS next env r w wd).1.code = 204 ∧
      (withCORS next env r w wd).1.body = [] ∧
      (withCORS next env r w wd).2 = wd ∧
      ∀ next2 : Handler, withCORS next2 env r w wd = withCORS next env r w wd) := by
  obtain ⟨s1, s2, s3, s4, s5⟩ := cors_set w
  have hopt : r.Method = "OPTIONS".toList →
      hasCORS (withCORS next env r w wd).1 ∧
      (withCORS next env r w wd).1.code = 204 ∧
      (withCORS next env r w wd).1.body = [] ∧
      (withCORS next env r w wd).2 = wd ∧
      ∀ next2 : Handler, withCORS next2 env r w wd = withCORS next env r w wd := by
    intro hm
    have e : ∀ n : Handler, withCORS n env r w wd =
        ((((w.Set "Access-Control-Allow-Origin".toList "*".toList).Set
          "Access-Control-Allow-Methods".toList "GET,POST,OPTIONS".toList).Set
          "Access-Control-Allow-Headers".toList "Content-Type".toList).WriteHeader 204, wd) := by
      intro n
      unfold withCORS
      simp only [hm, if_true]
    rw [e next]
    refine ⟨?_, ?_, ?_, rfl, fun n => by rw [e n]⟩
    · unfold hasCORS
      simp only [ResponseWriter.finish, ResponseWriter.WriteHeader, s1, hw.1]
      exact ⟨s3, s4, s5⟩
    · simp only [ResponseWriter.code, ResponseWriter.finish, ResponseWriter.WriteHeader, s1, hw.1]
      rfl
    · simp only [ResponseWriter.WriteHeader, s1, hw.1]
      exact s2.trans hw.2
  refine ⟨?_, hopt⟩
  rintro ⟨k1, k2, k3⟩
  by_cases hm : r.Method = "OPTIONS".toList
  · exact (hopt hm).1
  · have e : withCORS next env r w wd = next env r
        (((w.Set "Access-Control-Allow-Origin".toList "*".toList).Set
          "Access-Control-Allow-Methods".toList "GET,POST,OPTIONS".toList).Set
          "Access-Control-Allow-Headers".toList "Content-Type".toList) wd := by
      unfold withCORS
      simp only [hm, if_false]
    rw [e]
    exact ⟨k1 env r _ wd _ (s1.trans hw.1) s3, k2 env r _ wd _ (s1.trans hw.1) s4,
      k3 env r _ wd _ (s1.trans hw.1) s5⟩

/-- C8 on the API handlers: a GET on a missing post still carries the three
headers, and an OPTIONS request is answered 204 with an empty body. -/
theorem withCORS_headers_witness :
    hasCORS (withCORS handlePostByID Env.quiet (sampleRequest "GET" "/api/posts/7") .new
      World.empty).1 ∧
    (withCORS (handlePosts sampleLowerTbl) Env.quiet (sampleRequest "OPTIONS" "/api/posts") .new
      World.empty).1.code = 204 ∧
    (withCORS (handlePosts sampleLowerTbl) Env.quiet (sampleRequest "OPTIONS" "/api/posts") .new
      World.empty).1.body = [] := by
  have h1 := (withCORS_headers handlePostByID Env.quiet (sampleRequest "GET" "/api/posts/7") .new
    World.empty ⟨rfl, rfl⟩).1 (handlers_keep_cors sampleLowerTbl).2
  have h2 := (withCORS_headers (handlePosts sampleLowerTbl) Env.quiet
    (sampleRequest "OPTIONS" "/api/posts") .new World.empty ⟨rfl, rfl⟩).2 rfl
  exact ⟨h1, h2.2.1, h2.2.2.1⟩

/-! ## Generated file names -/

theorem mem_writeFile (dir : List (List Char × List Nat)) (name : List Char) (content : List Nat) :
    (name, content) ∈ writeFile dir name content := by
  simp [writeFile]

/-- C9, as the code has it: for an accepted upload the name `saveUpload`
returns is the decimal text of the creation timestamp followed by the
lower-cased extension of the client-supplied filename, which is one of `.jpg`,
`.jpeg`, `.png`, `.webp`; the file of that name holds the uploaded bytes; and
the imageUrl of the post a successful create returns (the `imageUrl` member of
the response body) and stores is `/uploads/` followed by exactly that name. -/
theorem saveUpload_name (lowerTbl : Char → Char) (hs : LowerTableSound lowerTbl) (env : Env) :
    (∀ (fh : FileHeader) (dir dir2 : List (List Char × List Nat)) (name : List Char),
      isAllowedImage lowerTbl fh.Filename = true →
      saveUpload lowerTbl env fh dir = (.ok name, dir2) →
      ∃ e ∈ allowedExts, eqFold (extensionOf fh.Filename) e = true ∧
        e = ToLower lowerTbl (Ext fh.Filename) ∧
        name = FormatInt env.now ++ e ∧
        (-(2 ^ 63) ≤ env.now → env.now < 2 ^ 63 → ParseInt (FormatInt env.now) = .ok env.now) ∧
        (name, fh.content) ∈ dir2) ∧
    (∀ (r : Request) (w : ResponseWriter) (wd : World), w.fresh →
      (handleCreatePost lowerTbl env r w wd).1.code = 200 →
      ∃ (fh : FileHeader) (name : List Char) (p row : Post),
        r.FormFile env "image".toList = some fh ∧
        (saveUpload lowerTbl env fh wd.uploads).1 = .ok name ∧
        (handleCreatePost lowerTbl env r w wd).1.body = [.json p.toJSON] ∧
        (handleCreatePost lowerTbl env r w wd).2.posts = wd.posts ++ [row] ∧
        p.ImageURL = "/uploads/".toList ++ name ∧ row.ImageURL = "/uploads/".toList ++ name ∧
        returnedImageURL (handleCreatePost lowerTbl env r w wd).1
          = some ("/uploads/".toList ++ name)) := by
  constructor
  · intro fh dir dir2 name hal hsave
    have hext : ToLower lowerTbl (Ext fh.Filename) ∈ allowedExts := by
      unfold isAllowedImage at hal
      dsimp only at hal
      split at hal
      · rename_i h
        simp only [allowedExts, List.mem_cons, List.mem_singleton, List.not_mem_nil, or_false]
        exact h
      · cases hal
    have hfold : eqFold (extensionOf fh.Filename) (ToLower lowerTbl (Ext fh.Filename)) = true := by
      have := (ToLower_eq_iff lowerTbl hs (Ext fh.Filename) _
        (allowedExts_chars _ hext)).mp rfl
      rw [Ext_eq_extensionOf] at this
      rw [Ext_eq_extensionOf]
      exact this
    unfold saveUpload at hsave
    dsimp only at hsave
    split at hsave
    · cases hsave
    · split at hsave
      · cases hsave
      · injection hsave with h1 h2
        injection h1 with h1
        subst h1 h2
        exact ⟨_, hext, hfold, rfl, rfl, fun a b => ParseInt_FormatInt env.now a b,
          mem_writeFile _ _ _⟩
  · intro r w wd hw h
    obtain ⟨fh, createdAt, hf, _, _, hsave, e⟩ := handleCreatePost_ok_inv lowerTbl env r w wd hw.1 h
    rw [e]
    exact ⟨fh, _, _, _, hf, by rw [hsave], writeJSON_body _ _ hw, rfl, rfl, rfl,
      (returned_writeJSON _ _ hw).2.2⟩

/-- C9 on `photo.JPG` at the instant 1700000000000000000: the file is saved as
`1700000000000000000.jpg`. -/
theorem saveUpload_name_witness :
    ∃ e ∈ allowedExts, "1700000000000000000.jpg".toList = FormatInt Env.quiet.now ++ e ∧
      ("1700000000000000000.jpg".toList, [1, 2, 3]) ∈
        (saveUpload sampleLowerTbl Env.quiet
          { Filename := "photo.JPG".toList, content := [1, 2, 3] } []).2 := by
  obtain ⟨e, he, _, _, h3, _, h5⟩ := (saveUpload_name sampleLowerTbl sampleLowerTbl_sound
    Env.quiet).1 { Filename := "photo.JPG".toList, content := [1, 2, 3] } []
    [("1700000000000000000.jpg".toList, [1, 2, 3])] "1700000000000000000.jpg".toList
    (by decide) rfl
  exact ⟨e, he, h3, h5⟩

/-- C9 as stated fails: the upload `photo.JPG` is accepted, and the name
`saveUpload` returns ends in `.jpg`, not in the original extension `.JPG`. -/
theorem saveUpload_original_extension_fails :
    isAllowedImage sampleLowerTbl "photo.JPG".toList = true ∧
    Ext "photo.JPG".toList = ".JPG".toList ∧
    (saveUpload sampleLowerTbl Env.quiet
      { Filename := "photo.JPG".toList, content := [1, 2, 3] } []).1
        = .ok "1700000000000000000.jpg".toList ∧
    ¬ (∀ (env : Env) (fh : FileHeader) (dir : List (List Char × List Nat)) (name : List Char),
        isAllowedImage sampleLowerTbl fh.Filename = true →
        (saveUpload sampleLowerTbl env fh dir).1 = .ok name →
        name = FormatInt env.now ++ Ext fh.Filename) := by
  refine ⟨by decide, by decide, rfl, ?_⟩
  intro h
  have := h Env.quiet { Filename := "photo.JPG".toList, content := [1, 2, 3] } []
    "1700000000000000000.jpg".toList (by decide) rfl
  revert this
  decide

/-- C10 fails on the store with no posts: the query succeeds, the loop appends
nothing to the nil slice, and `writeJSON` sends status 200 with the document
`null`, which is not a JSON array. -/
theorem handleGetPosts_empty_store_null :
    (handleGetPosts Env.quiet (sampleRequest "GET" "/api/posts") .new World.empty).1.code = 200 ∧
    (handleGetPosts Env.quiet (sampleRequest "GET" "/api/posts") .new World.empty).1.body
      = [.json .null] ∧
    JSON.isArray .null = false ∧
    (handlePosts sampleLowerTbl Env.quiet (sampleRequest "GET" "/api/posts") .new
      World.empty).1.body = [.json .null] := by
  exact ⟨by decide, rfl, rfl, rfl⟩

end NewsProjects
